import Mathlib

/-!
Verification of the natural-language specification of `SudokuSolver.py`
against a shallow embedding of the program in Lean 4.

The program represents a grid as a list of 81 squares, each square a pair
of an integer value (0 = open) and a set of candidate values.  We embed
squares as `Nat × List Nat`, with candidate sets canonicalized as
duplicate-free ascending lists (Python sets of small integers iterate in
ascending order), and Python dictionaries as insertion-ordered association
lists.  Recursion in `propagate` (a while-loop) and `solve` (recursive
search) is embedded with explicit fuel; the fuel `length + 1` is justified
because every continuing pass of the loop, and every recursive branch of
the search, strictly decreases the number of open cells.
-/

set_option maxHeartbeats 4000000
set_option maxRecDepth 10000

namespace SudokuSolver

/-- A square is a pair `(value, candidates)`; value `0` means open. -/
abbrev Square := Nat × List Nat

/-- A grid is a list of squares (81 in the intended use). -/
abbrev Sudoku := List Square

/-- `toRow(idx)`: converts a grid index to a row index (`idx/9`, floor division). -/
def toRow (idx : Nat) : Nat := idx / 9

/-- `toCol(idx)`: converts a grid index to a column index (`idx%9`). -/
def toCol (idx : Nat) : Nat := idx % 9

/-- `toBox(idx)`: converts a grid index to a box index, `(toRow(idx)/3)*3 + toCol(idx)/3`. -/
def toBox (idx : Nat) : Nat := (toRow idx / 3) * 3 + toCol idx / 3

/-- `getRow(i)`: the indices of row `i`, i.e. `range(i*9, (i+1)*9)`. -/
def getRow (i : Nat) : List Nat := List.range' (i * 9) 9

/-- `getCol(i)`: the indices of column `i`, i.e. `range(i, 73+i, 9)`. -/
def getCol (i : Nat) : List Nat := List.range' i 9 9

/-- `getBox(k)`: the indices of box `k`:
`start = k/3*27 + k%3*3`, then three runs of three consecutive indices. -/
def getBox (k : Nat) : List Nat :=
  let start := k / 3 * 27 + k % 3 * 3
  List.range' start 3 ++ List.range' (start + 9) 3 ++ List.range' (start + 18) 3

/-- The candidate set `set(range(1,10))` of a fresh open square. -/
def baseCands : List Nat := [1, 2, 3, 4, 5, 6, 7, 8, 9]

/-- Set intersection (`&=` in the source) on canonical candidate lists. -/
def inter (l1 l2 : List Nat) : List Nat := l1.filter (fun x => l2.contains x)

/-- Removes value `v` from the `k`-th of the nine group sets
(the guarded `if v in set: set.remove(v)` from `prune`). -/
def eraseAt (ls : List (List Nat)) (k v : Nat) : List (List Nat) :=
  ls.set k ((ls.getD k []).erase v)

/-- First loop of `prune`: for each group, collect the values not yet fixed in
it, starting from `set(range(1,10))` and removing every fixed value found. -/
def collectUsed (s : Sudoku) : List (List Nat) × List (List Nat) × List (List Nat) :=
  (List.range s.length).foldl
    (fun acc i =>
      let v := (s.getD i (0, [])).1
      if v ≠ 0 then
        (eraseAt acc.1 (toRow i) v, eraseAt acc.2.1 (toCol i) v, eraseAt acc.2.2 (toBox i) v)
      else acc)
    (List.replicate 9 baseCands, List.replicate 9 baseCands, List.replicate 9 baseCands)

/-- `prune(sudoku)`: intersect every open square's candidate set with the
sets of values still missing from its row, column and box. -/
def prune (s : Sudoku) : Sudoku :=
  let rcb := collectUsed s
  s.enum.map (fun p =>
    if p.2.1 = 0 then
      (p.2.1, inter (inter (inter p.2.2 (rcb.1.getD (toRow p.1) []))
        (rcb.2.1.getD (toCol p.1) [])) (rcb.2.2.getD (toBox p.1) []))
    else p.2)

/-- One step of `updateConstraints`: if square `i` is open, remove `value`
from its candidate set. -/
def updateCell (s : Sudoku) (i value : Nat) : Sudoku :=
  match s.get? i with
  | some sq => if sq.1 = 0 then s.set i (sq.1, sq.2.erase value) else s
  | none => s

/-- Applies `updateCell` along one group of indices. -/
def updateGroup (s : Sudoku) (idxs : List Nat) (value : Nat) : Sudoku :=
  idxs.foldl (fun s i => updateCell s i value) s

/-- `updateConstraints(sudoku, idx, value)`: removes `value` as a candidate
from the open squares of the box, row and column of square `idx`
(constraint order as in the source: box, row, column). -/
def updateConstraints (s : Sudoku) (idx value : Nat) : Sudoku :=
  updateGroup (updateGroup (updateGroup s (getBox (toBox idx)) value)
    (getRow (toRow idx)) value) (getCol (toCol idx)) value

/-- One step of the naked-single scan of `propagate`: if the square at `i`
has exactly one candidate, fix the square to it (`s[0] = s[1].pop()`),
set the `changed` flag and notify the peers. -/
def nakedStep (acc : Sudoku × Bool) (i : Nat) : Sudoku × Bool :=
  match acc.1.get? i with
  | some sq =>
    if sq.2.length = 1 then
      let v := sq.2.headD 0
      (updateConstraints (acc.1.set i (v, [])) i v, true)
    else acc
  | none => acc

/-- The naked-single scan over all squares (first loop of a `propagate` pass). -/
def nakedPass (s : Sudoku) : Sudoku × Bool :=
  (List.range s.length).foldl nakedStep (s, false)

/-- Adds one candidate occurrence to the `data` dictionary of the
hidden-single rule: entries are `(value, count, first index)`. -/
def bumpData (d : List (Nat × Nat × Nat)) (v i : Nat) : List (Nat × Nat × Nat) :=
  if d.any (fun e => e.1 == v) then
    d.map (fun e => if e.1 == v then (e.1, e.2.1 + 1, e.2.2) else e)
  else d ++ [(v, 1, i)]

/-- The `data` dictionary of the hidden-single rule for one group: for each
candidate value of an open square of the group, its occurrence count and the
index of the first open square that admits it. -/
def buildData (s : Sudoku) (group : List Nat) : List (Nat × Nat × Nat) :=
  group.foldl (fun d i =>
    match s.get? i with
    | some sq => if sq.1 = 0 then sq.2.foldl (fun d v => bumpData d v i) d else d
    | none => d) []

/-- Hidden-single firings for one group: every value counted exactly once is
written into its unique square (candidates cleared) and the peers are
notified.  The source sets a dead variable `forced = True` here; the loop
flag `changed` is NOT set by this rule. -/
def hiddenFires (s : Sudoku) (group : List Nat) : Sudoku :=
  (buildData s group).foldl (fun s e =>
    if e.2.1 = 1 then updateConstraints (s.set e.2.2 (e.1, [])) e.2.2 e.1 else s) s

/-- The hidden-single scan over all 27 groups, in source order
(`constraints = [getBox, getRow, getCol]`, group numbers 0..8 each). -/
def hiddenPass (s : Sudoku) : Sudoku :=
  [getBox, getRow, getCol].foldl
    (fun s c => (List.range 9).foldl (fun s i => hiddenFires s (c i)) s) s

/-- The `while changed` loop of `propagate`, with explicit fuel: each pass
runs the naked-single scan, re-runs `prune`, then the hidden-single scan,
and repeats while the naked-single scan changed something. -/
def propagateLoop : Nat → Sudoku → Sudoku
  | 0, s => s
  | n + 1, s =>
    let sc := nakedPass s
    let s3 := hiddenPass (prune sc.1)
    if sc.2 then propagateLoop n s3 else s3

/-- `propagate(sudoku)`: iterates the two rules; fuel `length + 1` suffices
because a pass with `changed = True` fixed at least one open square. -/
def propagate (s : Sudoku) : Sudoku := propagateLoop (s.length + 1) s

/-- `isSolved(sudoku)` on a list of values: true when no value is 0. -/
def isSolved (l : List Nat) : Bool := l.all (fun v => v != 0)

/-- Adds one candidate occurrence to the `frequency` dictionary of `solve`. -/
def bumpFreq (f : List (Nat × Nat)) (v : Nat) : List (Nat × Nat) :=
  if f.any (fun e => e.1 == v) then
    f.map (fun e => if e.1 == v then (e.1, e.2 + 1) else e)
  else f ++ [(v, 1)]

/-- The `frequency` dictionary of `solve`: counts, over all open squares of
the grid, how many admit each candidate value. -/
def buildFreq (s : Sudoku) : List (Nat × Nat) :=
  s.foldl (fun f sq => if sq.1 = 0 then sq.2.foldl bumpFreq f else f) []

/-- Dictionary lookup `frequency[x]`; `none` models a `KeyError`. -/
def freqOf (f : List (Nat × Nat)) (v : Nat) : Option Nat :=
  (f.find? (fun e => e.1 == v)).map (fun e => e.2)

/-- Stable insertion into a list sorted by `key` (the new element goes
after all elements of smaller or equal key). -/
def insertStable (key : Nat → Nat) (x : Nat) : List Nat → List Nat
  | [] => [x]
  | a :: l => if key a ≤ key x then a :: insertStable key x l else x :: a :: l

/-- Stable sort by a `Nat` key, modelling Python's stable `sorted`. -/
def sortByKey (key : Nat → Nat) (l : List Nat) : List Nat :=
  l.foldl (fun acc x => insertStable key x acc) []

/-- `sortedIndices` of `solve`: all square indices, stably sorted by the
number of candidates of the square (ascending). -/
def sortedIndices (s : Sudoku) : List Nat :=
  sortByKey (fun i => (s.getD i (0, [])).2.length) (List.range s.length)

/-- The order in which `solve` tries the candidate values of one square:
stably sorted by `frequency[x]` ascending.  The `getD 0` default is the
unreachable `KeyError` branch of the lookup. -/
def candOrder (freq : List (Nat × Nat)) (cands : List Nat) : List Nat :=
  sortByKey (fun v => (freqOf freq v).getD 0) cands

/-- Creates the internal grid representation from 81 input digits
(`[i, set(range(1,10)) if i == 0 else set()]`). -/
def toSudoku (grid : List Nat) : Sudoku :=
  grid.map (fun v => (v, if v = 0 then baseCands else []))

/-- The inner loop of `solve`: try each candidate value of square `i` in
order, recursing on a branch grid; return the first recursive result that
is a non-empty, fully assigned list (`if soln and isSolved(soln)`). -/
def tryValues (recur : List Nat → Option (List Nat)) (values : List Nat) (i : Nat) :
    List Nat → Option (List Nat)
  | [] => none
  | v :: rest =>
    match recur (values.set i v) with
    | some soln =>
      if !soln.isEmpty && isSolved soln then some soln
      else tryValues recur values i rest
    | none => tryValues recur values i rest

/-- The outer loop of `solve`: walk `sortedIndices`, guessing at every open
square in turn until some branch returns a solved grid. -/
def tryIndices (recur : List Nat → Option (List Nat)) (s2 : Sudoku)
    (freq : List (Nat × Nat)) (values : List Nat) : List Nat → Option (List Nat)
  | [] => none
  | i :: rest =>
    match s2.get? i with
    | some sq =>
      if sq.1 = 0 then
        match tryValues recur values i (candOrder freq sq.2) with
        | some soln => some soln
        | none => tryIndices recur s2 freq values rest
      else tryIndices recur s2 freq values rest
    | none => tryIndices recur s2 freq values rest

/-- `solve(grid)` with explicit recursion fuel: build the representation,
prune, propagate; return `none` (Python `None`) on a contradiction; then
search, and if no guess succeeds return the current value list
(`return [x[0] for x in sudoku]` — possibly partially filled). -/
def solveFuel : Nat → List Nat → Option (List Nat)
  | 0, _ => none
  | fuel + 1, grid =>
    let s2 := propagate (prune (toSudoku grid))
    if s2.any (fun sq => sq.1 == 0 && sq.2.isEmpty) then none
    else
      let freq := buildFreq s2
      let values := s2.map (fun sq => sq.1)
      match tryIndices (solveFuel fuel) s2 freq values (sortedIndices s2) with
      | some soln => some soln
      | none => some values

/-- `solve(grid)`: fuel `length + 1` suffices since every branch grid has
strictly fewer zeros than its parent. -/
def solve (grid : List Nat) : Option (List Nat) := solveFuel (grid.length + 1) grid

/-! ### Instrumented variants

The instrumented variants compute exactly the same states as the plain
functions and additionally record the observable actions the claims talk
about: the assignments `propagate` makes (with a flag telling whether the
written value equals the fixed value of a peer at that moment), and the
guesses `solve` makes at its own recursion level. -/

/-- The peer indices of square `idx`: its box, row and column
(in the order `updateConstraints` visits them; includes `idx` itself). -/
def groupPeers (idx : Nat) : List Nat :=
  getBox (toBox idx) ++ getRow (toRow idx) ++ getCol (toCol idx)

/-- True when some peer square of `idx` (other than `idx`) currently holds
the fixed value `v`. -/
def conflictAt (s : Sudoku) (idx v : Nat) : Bool :=
  (groupPeers idx).any (fun j => j != idx && (s.getD j (0, [])).1 == v)

/-- An assignment record `(index, value, conflict flag)`: the flag tells
whether the value, at the moment of assignment, equalled the fixed value of
a peer. -/
abbrev Assign := Nat × Nat × Bool

/-- Instrumented `nakedStep`: also records the assignment. -/
def nakedStepT (acc : (Sudoku × Bool) × List Assign) (i : Nat) :
    (Sudoku × Bool) × List Assign :=
  match acc.1.1.get? i with
  | some sq =>
    if sq.2.length = 1 then
      let v := sq.2.headD 0
      ((updateConstraints (acc.1.1.set i (v, [])) i v, true),
        acc.2 ++ [(i, v, conflictAt acc.1.1 i v)])
    else acc
  | none => acc

/-- Instrumented naked-single scan. -/
def nakedPassT (s : Sudoku) (evs : List Assign) : (Sudoku × Bool) × List Assign :=
  (List.range s.length).foldl nakedStepT ((s, false), evs)

/-- Instrumented hidden-single firings for one group. -/
def hiddenFiresT (st : Sudoku × List Assign) (group : List Nat) : Sudoku × List Assign :=
  (buildData st.1 group).foldl (fun st e =>
    if e.2.1 = 1 then
      (updateConstraints (st.1.set e.2.2 (e.1, [])) e.2.2 e.1,
        st.2 ++ [(e.2.2, e.1, conflictAt st.1 e.2.2 e.1)])
    else st) st

/-- Instrumented hidden-single scan over all 27 groups. -/
def hiddenPassT (st : Sudoku × List Assign) : Sudoku × List Assign :=
  [getBox, getRow, getCol].foldl
    (fun st c => (List.range 9).foldl (fun st i => hiddenFiresT st (c i)) st) st

/-- Instrumented `propagate` loop. -/
def propagateLoopT : Nat → Sudoku → List Assign → Sudoku × List Assign
  | 0, s, evs => (s, evs)
  | n + 1, s, evs =>
    let sct := nakedPassT s evs
    let st3 := hiddenPassT (prune sct.1.1, sct.2)
    if sct.1.2 then propagateLoopT n st3.1 st3.2 else st3

/-- Instrumented `propagate`: the final state together with every
assignment made along the way. -/
def propagateT (s : Sudoku) : Sudoku × List Assign :=
  propagateLoopT (s.length + 1) s []

/-- Instrumented inner loop of `solve`: also records the guesses
`(square index, value)` tried at this recursion level. -/
def tryValuesT (recur : List Nat → Option (List Nat)) (values : List Nat) (i : Nat) :
    List Nat → Option (List Nat) × List (Nat × Nat)
  | [] => (none, [])
  | v :: rest =>
    match recur (values.set i v) with
    | some soln =>
      if !soln.isEmpty && isSolved soln then (some soln, [(i, v)])
      else
        let r := tryValuesT recur values i rest
        (r.1, (i, v) :: r.2)
    | none =>
      let r := tryValuesT recur values i rest
      (r.1, (i, v) :: r.2)

/-- Instrumented outer loop of `solve`. -/
def tryIndicesT (recur : List Nat → Option (List Nat)) (s2 : Sudoku)
    (freq : List (Nat × Nat)) (values : List Nat) :
    List Nat → Option (List Nat) × List (Nat × Nat)
  | [] => (none, [])
  | i :: rest =>
    match s2.get? i with
    | some sq =>
      if sq.1 = 0 then
        match tryValuesT recur values i (candOrder freq sq.2) with
        | (some soln, tr) => (some soln, tr)
        | (none, tr) =>
          let r := tryIndicesT recur s2 freq values rest
          (r.1, tr ++ r.2)
      else tryIndicesT recur s2 freq values rest
    | none => tryIndicesT recur s2 freq values rest

/-- One `solve` invocation with its own guesses recorded (recursive calls
are the plain `solveFuel`; their guesses belong to their own invocation). -/
def solveTrace (fuel : Nat) (grid : List Nat) : Option (List Nat) × List (Nat × Nat) :=
  match fuel with
  | 0 => (none, [])
  | fuel + 1 =>
    let s2 := propagate (prune (toSudoku grid))
    if s2.any (fun sq => sq.1 == 0 && sq.2.isEmpty) then (none, [])
    else
      let freq := buildFreq s2
      let values := s2.map (fun sq => sq.1)
      match tryIndicesT (solveFuel fuel) s2 freq values (sortedIndices s2) with
      | (some soln, tr) => (some soln, tr)
      | (none, tr) => (some values, tr)

/-! ### Property definitions (formalizing the claims' vocabulary) -/

/-- The values of a list of cells of an output grid. -/
def groupValues (g : List Nat) (idxs : List Nat) : List Nat :=
  idxs.map (fun i => g.getD i 0)

/-- Each value of `{1..9}` occurs exactly once among the given cells. -/
def exactlyOnceIn (g : List Nat) (idxs : List Nat) : Bool :=
  baseCands.all (fun v => (groupValues g idxs).count v == 1)

/-- The validity property of a solved grid: each of the 27 groups contains
each value of `{1..9}` exactly once. -/
def validSolution (g : List Nat) : Bool :=
  (List.range 9).all (fun k =>
    exactlyOnceIn g (getRow k) && exactlyOnceIn g (getCol k) && exactlyOnceIn g (getBox k))

/-- A grid state per the data model: 81 squares; a fixed square carries no
candidates; candidate sets are duplicate-free (they are sets); and every
open square's candidate set is consistent with all currently fixed peers. -/
def GridState (s : Sudoku) : Prop :=
  s.length = 81 ∧ ∀ i, i < 81 →
    ((s.getD i (0, [])).1 ≠ 0 → (s.getD i (0, [])).2 = []) ∧
    (s.getD i (0, [])).2.Nodup ∧
    ((s.getD i (0, [])).1 = 0 →
      ∀ v ∈ (s.getD i (0, [])).2, conflictAt s i v = false)

instance (s : Sudoku) : Decidable (GridState s) := by
  unfold GridState; exact inferInstance

/-- All recorded assignments are free of conflicts with fixed peers. -/
def evOk (evs : List Assign) : Prop := ∀ e ∈ evs, e.2.2 = false

/-- The number of open squares other than the one at position `i` that
admit value `v`. -/
def admitsElsewhere (s : Sudoku) (i v : Nat) : Nat :=
  ((s.eraseIdx i).filter (fun sq => sq.1 == 0 && sq.2.contains v)).length

/-- The number of open squares (anywhere) that admit value `v`. -/
def admitsTotal (s : Sudoku) (v : Nat) : Nat :=
  (s.filter (fun sq => sq.1 == 0 && sq.2.contains v)).length

/-- The count stored for `v` in a frequency dictionary (0 when absent). -/
def occCount (f : List (Nat × Nat)) (v : Nat) : Nat := (freqOf f v).getD 0

/-- `SegStart l1 l2`: `l1` is an initial segment of `l2`. -/
def SegStart (l1 l2 : List (Nat × Nat)) : Prop := ∃ t, l1 ++ t = l2

/-- The guess enumeration determined by an index list: its open squares in
order, each paired with its candidates in `candOrder` order. -/
def guessEnumAux (s2 : Sudoku) (freq : List (Nat × Nat)) (idxs : List Nat) :
    List (Nat × Nat) :=
  (idxs.filter (fun i => (s2.getD i (0, [])).1 == 0)).flatMap
    (fun i => (candOrder freq (s2.getD i (0, [])).2).map (fun v => (i, v)))

/-- The full guess enumeration of one `solve` invocation: open squares in
`sortedIndices` order, each paired with its candidates in `candOrder`
order. -/
def guessEnum (s2 : Sudoku) (freq : List (Nat × Nat)) : List (Nat × Nat) :=
  guessEnumAux s2 freq (sortedIndices s2)

/-- The guess enumeration determined by an input grid. -/
def solveGuessEnum (grid : List Nat) : List (Nat × Nat) :=
  let s2 := propagate (prune (toSudoku grid))
  if s2.any (fun sq => sq.1 == 0 && sq.2.isEmpty) then []
  else guessEnum s2 (buildFreq s2)

/-! ### Concrete grids used as failing inputs and witnesses -/

/-- The input of 81 ones: every row, column and box holds the digit 1 nine
times, so the same nonzero value occurs in two distinct cells of one row. -/
def allOnes : List Nat := List.replicate 81 1

/-- An input whose four open cells (indices 0, 1, 9, 10) each admit exactly
`{1,2}`, arranged so that every guess dies in a contradiction while the
initial state has none: the search exhausts and `solve` falls through to
`return [x[0] for x in sudoku]`. -/
def gridExhaust : List Nat :=
  [0, 0, 3, 4, 5, 6, 7, 8, 9,
   0, 0, 3, 4, 5, 6, 7, 8, 9,
   3, 3, 9, 9, 9, 9, 9, 9, 9,
   4, 4, 9, 9, 9, 9, 9, 9, 9,
   5, 5, 9, 9, 9, 9, 9, 9, 9,
   6, 6, 9, 9, 9, 9, 9, 9, 9,
   7, 7, 9, 9, 9, 9, 9, 9, 9,
   8, 8, 9, 9, 9, 9, 9, 9, 9,
   9, 9, 9, 9, 9, 9, 9, 9, 9]

/-- A puzzle (49 open cells) on which the last `propagate` pass applies
only hidden singles — which set the dead variable `forced` instead of the
loop flag `changed` — so `propagate` returns before reaching a fixed
point: square 9 is left open with the single candidate 4. -/
def c4grid : List Nat :=
  [0, 0, 0, 0, 5, 6, 7, 0, 0,
   0, 0, 0, 7, 0, 0, 0, 0, 3,
   7, 0, 9, 1, 2, 0, 0, 0, 0,
   2, 0, 0, 5, 0, 7, 8, 0, 1,
   5, 0, 7, 8, 0, 0, 0, 3, 0,
   8, 9, 0, 0, 0, 0, 5, 0, 7,
   3, 0, 0, 6, 0, 0, 0, 1, 2,
   6, 7, 8, 0, 0, 0, 3, 0, 5,
   0, 0, 0, 0, 4, 0, 0, 0, 0]

/-- A grid state with every square fixed (no open squares), used to
instantiate universally quantified theorems at a concrete state. -/
def allNinesFixed : Sudoku := List.replicate 81 ((9 : Nat), ([] : List Nat))

/-! ## Theorems -/

/-! ### Stable sorting lemmas -/

theorem insertStable_perm (key : Nat → Nat) (x : Nat) (l : List Nat) :
    (insertStable key x l).Perm (x :: l) := by
  induction l with
  | nil => simp [insertStable]
  | cons a l ih =>
    simp only [insertStable]
    split
    · exact (ih.cons a).trans (List.Perm.swap x a l)
    · exact List.Perm.refl _

theorem mem_insertStable {key : Nat → Nat} {x y : Nat} {l : List Nat} :
    y ∈ insertStable key x l ↔ y = x ∨ y ∈ l := by
  rw [(insertStable_perm key x l).mem_iff, List.mem_cons]

theorem sortFold_perm (key : Nat → Nat) :
    ∀ (l acc : List Nat),
      (l.foldl (fun acc x => insertStable key x acc) acc).Perm (acc ++ l)
  | [], acc => by simp
  | a :: l, acc => by
    refine (sortFold_perm key l (insertStable key a acc)).trans ?_
    refine ((insertStable_perm key a acc).append_right l).trans ?_
    simpa using List.perm_middle.symm

theorem sortByKey_perm (key : Nat → Nat) (l : List Nat) :
    (sortByKey key l).Perm l := by
  simpa [sortByKey] using sortFold_perm key l []

theorem mem_sortByKey {key : Nat → Nat} {l : List Nat} {x : Nat} :
    x ∈ sortByKey key l ↔ x ∈ l :=
  (sortByKey_perm key l).mem_iff

theorem insertStable_sorted (key : Nat → Nat) (x : Nat) {l : List Nat}
    (h : l.Pairwise (fun a b => key a ≤ key b)) :
    (insertStable key x l).Pairwise (fun a b => key a ≤ key b) := by
  induction l with
  | nil => simp [insertStable]
  | cons a l ih =>
    rcases List.pairwise_cons.1 h with ⟨ha, hl⟩
    simp only [insertStable]
    split
    · refine List.pairwise_cons.2 ⟨?_, ih hl⟩
      intro y hy
      rcases mem_insertStable.1 hy with rfl | hy
      · assumption
      · exact ha y hy
    · refine List.pairwise_cons.2 ⟨?_, h⟩
      intro y hy
      have hxa : key x ≤ key a := Nat.le_of_lt (Nat.lt_of_not_le (by assumption))
      rcases List.mem_cons.1 hy with rfl | hy
      · exact hxa
      · exact Nat.le_trans hxa (ha y hy)

theorem sortFold_sorted (key : Nat → Nat) :
    ∀ (l acc : List Nat), acc.Pairwise (fun a b => key a ≤ key b) →
      (l.foldl (fun acc x => insertStable key x acc) acc).Pairwise
        (fun a b => key a ≤ key b)
  | [], _, h => h
  | a :: l, acc, h => sortFold_sorted key l _ (insertStable_sorted key a h)

theorem sortByKey_sorted (key : Nat → Nat) (l : List Nat) :
    (sortByKey key l).Pairwise (fun a b => key a ≤ key b) :=
  sortFold_sorted key l [] (List.Pairwise.nil)

/-- The strict order produced by the stable sort on a strictly increasing
input list: keys ascend, and on equal keys the original (index) order is
kept. -/
def stableBelow (key : Nat → Nat) (a b : Nat) : Prop :=
  key a < key b ∨ (key a = key b ∧ a < b)

theorem insertStable_sorted_strict (key : Nat → Nat) (x : Nat) {l : List Nat}
    (h : l.Pairwise (stableBelow key)) (hx : ∀ y ∈ l, y < x) :
    (insertStable key x l).Pairwise (stableBelow key) := by
  induction l with
  | nil => simp [insertStable]
  | cons a l ih =>
    rcases List.pairwise_cons.1 h with ⟨ha, hl⟩
    simp only [insertStable]
    split
    · refine List.pairwise_cons.2 ⟨?_, ih hl (fun y hy => hx y (List.mem_cons_of_mem a hy))⟩
      intro y hy
      rcases mem_insertStable.1 hy with rfl | hy
      · rcases Nat.lt_or_ge (key a) (key y) with h1 | h1
        · exact Or.inl h1
        · exact Or.inr ⟨Nat.le_antisymm (by assumption) h1, hx a (List.mem_cons_self a l)⟩
      · exact ha y hy
    · refine List.pairwise_cons.2 ⟨?_, h⟩
      intro y hy
      have hxa : key x < key a := Nat.lt_of_not_le (by assumption)
      rcases List.mem_cons.1 hy with rfl | hy
      · exact Or.inl hxa
      · rcases ha y hy with h1 | h1
        · exact Or.inl (Nat.lt_trans hxa h1)
        · exact Or.inl (h1.1 ▸ hxa)

theorem sortFold_sorted_strict (key : Nat → Nat) :
    ∀ (l acc : List Nat), acc.Pairwise (stableBelow key) →
      (∀ y ∈ acc, ∀ x ∈ l, y < x) → l.Pairwise (· < ·) →
      (l.foldl (fun acc x => insertStable key x acc) acc).Pairwise (stableBelow key)
  | [], _, h, _, _ => h
  | a :: l, acc, h, hord, hasc => by
    rcases List.pairwise_cons.1 hasc with ⟨halt, hltl⟩
    refine sortFold_sorted_strict key l _ ?_ ?_ hltl
    · exact insertStable_sorted_strict key a h
        (fun y hy => hord y hy a (List.mem_cons_self a l))
    · intro y hy x hx
      rcases mem_insertStable.1 hy with rfl | hy
      · exact halt x hx
      · exact hord y hy x (List.mem_cons_of_mem a hx)

theorem sortByKey_range_sorted_strict (key : Nat → Nat) (n : Nat) :
    (sortByKey key (List.range n)).Pairwise (stableBelow key) :=
  sortFold_sorted_strict key (List.range n) [] List.Pairwise.nil
    (by intro y hy; cases hy) (List.pairwise_lt_range n)

/-! ### Frequency dictionary lemmas -/

theorem freqOf_cons_pos (e : Nat × Nat) (f : List (Nat × Nat)) (v : Nat) (h : e.1 = v) :
    freqOf (e :: f) v = some e.2 := by
  unfold freqOf
  rw [List.find?_cons_of_pos _ (by simpa using h)]
  rfl

theorem freqOf_cons_neg (e : Nat × Nat) (f : List (Nat × Nat)) (v : Nat) (h : e.1 ≠ v) :
    freqOf (e :: f) v = freqOf f v := by
  unfold freqOf
  rw [List.find?_cons_of_neg _ (by simpa using h)]

theorem freqOf_eq_none (f : List (Nat × Nat)) (w : Nat)
    (h : f.any (fun e => e.1 == w) = false) : freqOf f w = none := by
  unfold freqOf
  rw [List.find?_eq_none.2]
  · rfl
  · intro e he
    have := (List.any_eq_false).1 h e he
    simpa using this

theorem freqOf_map_bump (f : List (Nat × Nat)) (v w : Nat) :
    freqOf (f.map (fun e => if e.1 == w then (e.1, e.2 + 1) else e)) v =
      if v = w then (freqOf f v).map (fun n => n + 1) else freqOf f v := by
  induction f with
  | nil => by_cases h : v = w <;> simp [freqOf, h]
  | cons e f ih =>
    rw [List.map_cons]
    by_cases hew : e.1 = w
    · have hbeq : (e.1 == w) = true := by simpa using hew
      rw [if_pos hbeq]
      by_cases hev : e.1 = v
      · have hvw : v = w := hev.symm.trans hew
        rw [freqOf_cons_pos (e.1, e.2 + 1) _ v hev, freqOf_cons_pos e f v hev, if_pos hvw]
        rfl
      · have hvw : ¬v = w := fun hh => hev (hew.trans hh.symm)
        rw [freqOf_cons_neg (e.1, e.2 + 1) _ v hev, freqOf_cons_neg e f v hev, ih,
          if_neg hvw]
    · have hbeq : (e.1 == w) = false := by simpa using hew
      rw [if_neg (by simp [hbeq])]
      by_cases hev : e.1 = v
      · have hvw : ¬v = w := fun hh => hew (hev.trans hh)
        rw [freqOf_cons_pos e _ v hev, freqOf_cons_pos e f v hev, if_neg hvw]
      · rw [freqOf_cons_neg e _ v hev, freqOf_cons_neg e f v hev, ih]

theorem freqOf_append_single (f : List (Nat × Nat)) (v w : Nat) :
    freqOf (f ++ [(w, 1)]) v =
      ((freqOf f v).orElse (fun _ => if v = w then some 1 else none)) := by
  induction f with
  | nil =>
    rw [List.nil_append]
    by_cases h : v = w
    · subst h
      rw [freqOf_cons_pos (v, 1) [] v rfl]
      simp [freqOf]
    · rw [freqOf_cons_neg (w, 1) [] v (fun hh => h hh.symm)]
      simp [freqOf, h]
  | cons e f ih =>
    rw [List.cons_append]
    by_cases hev : e.1 = v
    · rw [freqOf_cons_pos e _ v hev, freqOf_cons_pos e f v hev]
      rfl
    · rw [freqOf_cons_neg e _ v hev, freqOf_cons_neg e f v hev]
      exact ih

theorem freqOf_bumpFreq (f : List (Nat × Nat)) (v w : Nat) :
    freqOf (bumpFreq f w) v =
      if v = w then some (occCount f v + 1) else freqOf f v := by
  unfold bumpFreq
  by_cases hany : f.any (fun e => e.1 == w) = true
  · rw [if_pos hany, freqOf_map_bump]
    by_cases hvw : v = w
    · subst hvw
      rcases List.any_eq_true.1 hany with ⟨e, he, hev⟩
      have hsome : ∃ n, freqOf f v = some n := by
        unfold freqOf
        have h1 : (f.find? (fun e => e.1 == v)).isSome = true :=
          List.find?_isSome.2 ⟨e, he, hev⟩
        rcases Option.isSome_iff_exists.1 h1 with ⟨e', he'⟩
        exact ⟨e'.2, by rw [he']; rfl⟩
      rcases hsome with ⟨n, hn⟩
      unfold occCount
      simp [hn]
    · rw [if_neg hvw, if_neg hvw]
  · have hany' : f.any (fun e => e.1 == w) = false := by
      cases h : f.any (fun e => e.1 == w)
      · rfl
      · exact absurd h hany
    rw [if_neg hany, freqOf_append_single]
    by_cases hvw : v = w
    · subst hvw
      rw [freqOf_eq_none f v hany', if_pos rfl]
      simp [occCount, freqOf_eq_none f v hany']
    · rw [if_neg hvw]
      rcases hf : freqOf f v with _ | n <;> simp [hvw]

theorem occCount_bumpFreq (f : List (Nat × Nat)) (v w : Nat) :
    occCount (bumpFreq f w) v = occCount f v + (if v = w then 1 else 0) := by
  unfold occCount
  rw [freqOf_bumpFreq]
  by_cases h : v = w <;> simp [h, occCount]

theorem isSome_freqOf_bumpFreq (f : List (Nat × Nat)) (v w : Nat) :
    (freqOf (bumpFreq f w) v).isSome = ((freqOf f v).isSome || (v == w)) := by
  rw [freqOf_bumpFreq]
  by_cases h : v = w <;> simp [h]

theorem occCount_foldl_bumpFreq (v : Nat) :
    ∀ (vs : List Nat) (f : List (Nat × Nat)),
      occCount (vs.foldl bumpFreq f) v = occCount f v + vs.count v
  | [], f => by simp
  | w :: vs, f => by
    rw [List.foldl_cons, occCount_foldl_bumpFreq v vs (bumpFreq f w),
      occCount_bumpFreq, List.count_cons]
    by_cases h : v = w
    · simp [h, Nat.add_assoc, Nat.add_comm]
    · have : (w == v) = false := by simpa using Ne.symm h
      simp [h, this]

theorem isSome_foldl_bumpFreq (v : Nat) :
    ∀ (vs : List Nat) (f : List (Nat × Nat)),
      (freqOf (vs.foldl bumpFreq f) v).isSome = ((freqOf f v).isSome || vs.contains v)
  | [], f => by simp
  | w :: vs, f => by
    rw [List.foldl_cons, isSome_foldl_bumpFreq v vs (bumpFreq f w),
      isSome_freqOf_bumpFreq]
    by_cases h : v = w
    · simp [h, List.contains_cons]
    · have hb : (v == w) = false := by simpa using h
      simp [hb, h, List.contains_cons, Bool.or_assoc]

/-- Unfolding `admitsTotal` at a cons cell. -/
theorem admitsTotal_cons (sq : Square) (s : Sudoku) (v : Nat) :
    admitsTotal (sq :: s) v =
      (if sq.1 = 0 ∧ v ∈ sq.2 then 1 else 0) + admitsTotal s v := by
  unfold admitsTotal
  rw [List.filter_cons]
  by_cases h : sq.1 = 0 ∧ v ∈ sq.2
  · have hb : (sq.1 == 0 && sq.2.contains v) = true := by simp [h.1, h.2]
    simp [hb, h, Nat.add_comm]
  · have hb : (sq.1 == 0 && sq.2.contains v) = false := by
      rcases not_and_or.1 h with h1 | h2
      · simp [h1]
      · simp [h2]
    simp [hb, h]

theorem occCount_buildFreq_aux (v : Nat) :
    ∀ (s : Sudoku) (f : List (Nat × Nat)), (∀ sq ∈ s, sq.2.Nodup) →
      occCount (s.foldl (fun f sq => if sq.1 = 0 then sq.2.foldl bumpFreq f else f) f) v =
        occCount f v + admitsTotal s v
  | [], f, _ => by simp [admitsTotal]
  | sq :: s, f, hnd => by
    rw [List.foldl_cons]
    rw [occCount_buildFreq_aux v s _ (fun c hc => hnd c (List.mem_cons_of_mem sq hc))]
    have hsq : sq.2.Nodup := hnd sq (List.mem_cons_self sq s)
    rw [admitsTotal_cons]
    by_cases hopen : sq.1 = 0
    · rw [if_pos hopen, occCount_foldl_bumpFreq]
      by_cases hmem : v ∈ sq.2
      · rw [List.count_eq_one_of_mem hsq hmem, if_pos ⟨hopen, hmem⟩]
        omega
      · rw [List.count_eq_zero.2 hmem, if_neg (fun hh => hmem hh.2)]
        omega
    · rw [if_neg hopen, if_neg (fun hh => hopen hh.1)]
      omega

theorem occCount_buildFreq (s : Sudoku) (v : Nat) (hnd : ∀ sq ∈ s, sq.2.Nodup) :
    occCount (buildFreq s) v = admitsTotal s v := by
  have := occCount_buildFreq_aux v s [] hnd
  simpa [buildFreq, occCount, freqOf] using this

theorem isSome_buildFreq_aux (v : Nat) :
    ∀ (s : Sudoku) (f : List (Nat × Nat)),
      (freqOf (s.foldl (fun f sq => if sq.1 = 0 then sq.2.foldl bumpFreq f else f) f) v).isSome =
        ((freqOf f v).isSome || s.any (fun sq => sq.1 == 0 && sq.2.contains v))
  | [], f => by simp
  | sq :: s, f => by
    rw [List.foldl_cons, isSome_buildFreq_aux v s]
    by_cases hopen : sq.1 = 0
    · rw [if_pos hopen, isSome_foldl_bumpFreq]
      simp [hopen, Bool.or_assoc, Bool.or_comm, Bool.or_left_comm]
    · have h0 : (sq.1 == 0) = false := by simpa using hopen
      rw [if_neg hopen]
      simp [h0]

theorem isSome_buildFreq (s : Sudoku) (v : Nat) :
    (freqOf (buildFreq s) v).isSome = s.any (fun sq => sq.1 == 0 && sq.2.contains v) := by
  have := isSome_buildFreq_aux v s []
  simpa [buildFreq, freqOf] using this

theorem admitsTotal_eraseIdx :
    ∀ (s : Sudoku) (i : Nat) (sq : Square) (v : Nat), s.get? i = some sq →
      admitsTotal s v =
        admitsElsewhere s i v + (if sq.1 = 0 ∧ v ∈ sq.2 then 1 else 0)
  | [], i, sq, v, h => by cases i <;> simp [List.get?] at h
  | c :: s, 0, sq, v, h => by
    have hc : c = sq := by simpa [List.get?] using h
    subst hc
    rw [admitsTotal_cons]
    have he : admitsElsewhere (c :: s) 0 v = admitsTotal s v := by
      unfold admitsElsewhere admitsTotal
      rw [List.eraseIdx_cons_zero]
    rw [he]
    omega
  | c :: s, i + 1, sq, v, h => by
    have h' : s.get? i = some sq := by simpa [List.get?] using h
    have ih := admitsTotal_eraseIdx s i sq v h'
    have he : admitsElsewhere (c :: s) (i + 1) v =
        (if c.1 = 0 ∧ v ∈ c.2 then 1 else 0) + admitsElsewhere s i v := by
      unfold admitsElsewhere
      rw [List.eraseIdx_cons_succ, List.filter_cons]
      by_cases hp : c.1 = 0 ∧ v ∈ c.2
      · have hb : (c.1 == 0 && c.2.contains v) = true := by simp [hp.1, hp.2]
        simp [hb, hp, Nat.add_comm]
      · have hb : (c.1 == 0 && c.2.contains v) = false := by
          rcases not_and_or.1 hp with h1 | h2
          · simp [h1]
          · simp [h2]
        simp [hb, hp]
    rw [admitsTotal_cons, he, ih]
    omega

/-! ### Length preservation -/

theorem updateCell_length (s : Sudoku) (i v : Nat) :
    (updateCell s i v).length = s.length := by
  unfold updateCell
  cases h : s.get? i with
  | none => rfl
  | some sq =>
    by_cases h1 : sq.1 = 0
    · simp [h1]
    · simp [h1]

theorem updateGroup_length (v : Nat) : ∀ (g : List Nat) (s : Sudoku),
    (updateGroup s g v).length = s.length
  | [], _ => rfl
  | i :: g, s => by
    unfold updateGroup
    rw [List.foldl_cons]
    have h := updateGroup_length v g (updateCell s i v)
    unfold updateGroup at h
    rw [h, updateCell_length]

theorem updateConstraints_length (s : Sudoku) (idx v : Nat) :
    (updateConstraints s idx v).length = s.length := by
  unfold updateConstraints
  rw [updateGroup_length, updateGroup_length, updateGroup_length]

theorem prune_length (s : Sudoku) : (prune s).length = s.length := by
  unfold prune
  rw [List.length_map, List.enum_length]

theorem nakedStep_length (acc : Sudoku × Bool) (i : Nat) :
    (nakedStep acc i).1.length = acc.1.length := by
  unfold nakedStep
  cases h : acc.1.get? i with
  | none => rfl
  | some sq =>
    by_cases h1 : sq.2.length = 1
    · simp [h1, updateConstraints_length]
    · simp [h1]

theorem nakedPass_fold_length : ∀ (l : List Nat) (acc : Sudoku × Bool),
    (l.foldl nakedStep acc).1.length = acc.1.length
  | [], _ => rfl
  | i :: l, acc => by
    rw [List.foldl_cons, nakedPass_fold_length l (nakedStep acc i), nakedStep_length]

theorem nakedPass_length (s : Sudoku) : (nakedPass s).1.length = s.length :=
  nakedPass_fold_length (List.range s.length) (s, false)

theorem hiddenFires_fold_length :
    ∀ (d : List (Nat × Nat × Nat)) (s : Sudoku),
      (d.foldl (fun s e =>
        if e.2.1 = 1 then updateConstraints (s.set e.2.2 (e.1, [])) e.2.2 e.1 else s) s).length =
      s.length
  | [], _ => rfl
  | e :: d, s => by
    rw [List.foldl_cons, hiddenFires_fold_length d]
    by_cases h1 : e.2.1 = 1
    · simp [h1, updateConstraints_length]
    · simp [h1]

theorem hiddenFires_length (s : Sudoku) (g : List Nat) :
    (hiddenFires s g).length = s.length := by
  unfold hiddenFires
  exact hiddenFires_fold_length (buildData s g) s

theorem hiddenFires_range_fold_length (c : Nat → List Nat) :
    ∀ (l : List Nat) (s : Sudoku),
      (l.foldl (fun s i => hiddenFires s (c i)) s).length = s.length
  | [], _ => rfl
  | i :: l, s => by
    rw [List.foldl_cons, hiddenFires_range_fold_length c l, hiddenFires_length]

theorem hiddenPass_length (s : Sudoku) : (hiddenPass s).length = s.length := by
  unfold hiddenPass
  rw [List.foldl_cons, List.foldl_cons, List.foldl_cons, List.foldl_nil]
  rw [hiddenFires_range_fold_length, hiddenFires_range_fold_length,
    hiddenFires_range_fold_length]

theorem propagateLoop_length : ∀ (n : Nat) (s : Sudoku),
    (propagateLoop n s).length = s.length
  | 0, _ => rfl
  | n + 1, s => by
    unfold propagateLoop
    by_cases h : (nakedPass s).2 = true
    · simp only [h, if_true]
      rw [propagateLoop_length n, hiddenPass_length, prune_length, nakedPass_length]
    · have h' : (nakedPass s).2 = false := by
        cases hh : (nakedPass s).2
        · rfl
        · exact absurd hh h
      simp only [h']
      rw [if_neg Bool.false_ne_true, hiddenPass_length, prune_length, nakedPass_length]

theorem propagate_length (s : Sudoku) : (propagate s).length = s.length := by
  unfold propagate
  exact propagateLoop_length (s.length + 1) s

theorem sortedIndices_mem {s : Sudoku} {i : Nat} (h : i ∈ sortedIndices s) :
    i < s.length := by
  unfold sortedIndices at h
  exact List.mem_range.1 (mem_sortByKey.1 h)

/-- C7: in every solve invocation, the candidate values of a cell chosen for
branching are tried in the order `candOrder` (stably sorted by the
`frequency` table built from the post-propagation grid), and this order is
ascending in the number of OTHER open cells that admit each value: the
table counts every open cell including the branching cell itself, a uniform
`+1` that does not affect the order. -/
theorem c7_candidate_order_by_frequency (s : Sudoku) (i : Nat) (sq : Square)
    (hget : s.get? i = some sq) (hopen : sq.1 = 0)
    (hnd : ∀ c ∈ s, c.2.Nodup) :
    (candOrder (buildFreq s) sq.2).Pairwise
      (fun a b => admitsElsewhere s i a ≤ admitsElsewhere s i b) := by
  have hkey : ∀ v ∈ sq.2, (freqOf (buildFreq s) v).getD 0 = admitsElsewhere s i v + 1 := by
    intro v hv
    have h1 : occCount (buildFreq s) v = admitsTotal s v := occCount_buildFreq s v hnd
    have h2 := admitsTotal_eraseIdx s i sq v hget
    rw [if_pos ⟨hopen, hv⟩] at h2
    unfold occCount at h1
    omega
  have hsorted := sortByKey_sorted (fun v => (freqOf (buildFreq s) v).getD 0) sq.2
  unfold candOrder
  refine List.Pairwise.imp_of_mem ?_ hsorted
  intro a b ha hb hr
  have ha' := hkey a (mem_sortByKey.1 ha)
  have hb' := hkey b (mem_sortByKey.1 hb)
  rw [ha', hb'] at hr
  omega

/-- Witness for C7 on the post-propagation state of `gridExhaust` at open
cell 0 (candidates `[1,2]`). -/
theorem c7_witness :
    (propagate (prune (toSudoku gridExhaust))).get? 0 = some (0, [1, 2]) ∧
    (candOrder (buildFreq (propagate (prune (toSudoku gridExhaust))))
        [1, 2]).Pairwise
      (fun a b => admitsElsewhere (propagate (prune (toSudoku gridExhaust))) 0 a ≤
        admitsElsewhere (propagate (prune (toSudoku gridExhaust))) 0 b) :=
  ⟨by decide,
   c7_candidate_order_by_frequency (propagate (prune (toSudoku gridExhaust))) 0
     (0, [1, 2]) (by decide) rfl (by decide)⟩

/-- C10: the embedded fallible operations of `solve` never fail: (a) the
`frequency` lookup succeeds for every candidate value of every open cell of
the grid the table was built from — the table counts every open cell,
including the branching cell itself, so the `none` branch of `freqOf` is
unreachable; (b) every group function yields indices below 81; (c) `prune`
and `propagate` preserve the grid length (81 stays 81); (d) `sortedIndices`
yields in-range indices only. -/
theorem c10_lookups_safe :
    (∀ (s : Sudoku) (i : Nat) (sq : Square) (v : Nat),
      s.get? i = some sq → sq.1 = 0 → v ∈ sq.2 →
      freqOf (buildFreq s) v ≠ none) ∧
    (∀ g, g < 9 → (∀ j ∈ getRow g, j < 81) ∧ (∀ j ∈ getCol g, j < 81) ∧
      (∀ j ∈ getBox g, j < 81)) ∧
    (∀ s : Sudoku, (prune s).length = s.length) ∧
    (∀ s : Sudoku, (propagate s).length = s.length) ∧
    (∀ s : Sudoku, ∀ i ∈ sortedIndices s, i < s.length) := by
  refine ⟨?_, by decide, prune_length, propagate_length, fun s i h => sortedIndices_mem h⟩
  intro s i sq v hget hopen hv
  have hmem : sq ∈ s := List.get?_mem hget
  have hany : s.any (fun sq => sq.1 == 0 && sq.2.contains v) = true :=
    List.any_eq_true.2 ⟨sq, hmem, by simp [hopen, hv]⟩
  have := isSome_buildFreq s v
  rw [hany] at this
  exact Option.ne_none_iff_isSome.2 this

/-- Witness for C10: the lookup of candidate 1 of open cell 0 of the
post-propagation state of `gridExhaust` succeeds, and lengths are kept. -/
theorem c10_witness :
    freqOf (buildFreq (propagate (prune (toSudoku gridExhaust)))) 1 ≠ none ∧
    (propagate (prune (toSudoku gridExhaust))).length =
      (prune (toSudoku gridExhaust)).length :=
  ⟨c10_lookups_safe.1 (propagate (prune (toSudoku gridExhaust))) 0 (0, [1, 2]) 1
      (by decide) rfl (by decide),
   c10_lookups_safe.2.2.2.1 (prune (toSudoku gridExhaust))⟩

/-! ### Guess trace lemmas -/

theorem SegStart_nil (l : List (Nat × Nat)) : SegStart [] l := ⟨l, rfl⟩

theorem SegStart_cons (a : Nat × Nat) {l1 l2 : List (Nat × Nat)} (h : SegStart l1 l2) :
    SegStart (a :: l1) (a :: l2) := by
  rcases h with ⟨t, ht⟩
  exact ⟨t, by rw [List.cons_append, ht]⟩

theorem SegStart_extend {l1 l2 : List (Nat × Nat)} (r : List (Nat × Nat))
    (h : SegStart l1 l2) : SegStart l1 (l2 ++ r) := by
  rcases h with ⟨t, ht⟩
  exact ⟨t ++ r, by rw [← List.append_assoc, ht]⟩

theorem SegStart_append_left (l : List (Nat × Nat)) {t r : List (Nat × Nat)}
    (h : SegStart t r) : SegStart (l ++ t) (l ++ r) := by
  rcases h with ⟨u, hu⟩
  exact ⟨u, by rw [List.append_assoc, hu]⟩

theorem tryValuesT_fst (recur : List Nat → Option (List Nat)) (values : List Nat) (i : Nat) :
    ∀ vals : List Nat,
      (tryValuesT recur values i vals).1 = tryValues recur values i vals
  | [] => rfl
  | v :: rest => by
    simp only [tryValuesT, tryValues]
    cases hr : recur (values.set i v) with
    | some soln =>
      by_cases hs : (!soln.isEmpty && isSolved soln) = true
      · simp [hs]
      · simp [hs, tryValuesT_fst recur values i rest]
    | none => simp [tryValuesT_fst recur values i rest]

theorem tryIndicesT_fst (recur : List Nat → Option (List Nat)) (s2 : Sudoku)
    (freq : List (Nat × Nat)) (values : List Nat) :
    ∀ idxs : List Nat,
      (tryIndicesT recur s2 freq values idxs).1 = tryIndices recur s2 freq values idxs
  | [] => rfl
  | i :: rest => by
    simp only [tryIndicesT, tryIndices]
    cases hg : s2.get? i with
    | none => exact tryIndicesT_fst recur s2 freq values rest
    | some sq =>
      by_cases hopen : sq.1 = 0
      · simp only [hopen, if_pos rfl]
        rcases htv : tryValuesT recur values i (candOrder freq sq.2) with ⟨o, tr⟩
        have := tryValuesT_fst recur values i (candOrder freq sq.2)
        rw [htv] at this
        cases o with
        | some soln => simp [← this]
        | none => simp [← this, tryIndicesT_fst recur s2 freq values rest]
      · simp only [if_neg hopen]
        exact tryIndicesT_fst recur s2 freq values rest

theorem solveTrace_fst : ∀ (fuel : Nat) (grid : List Nat),
    (solveTrace fuel grid).1 = solveFuel fuel grid
  | 0, _ => rfl
  | fuel + 1, grid => by
    simp only [solveTrace, solveFuel]
    by_cases hc : ((propagate (prune (toSudoku grid))).any
        fun sq => sq.1 == 0 && sq.2.isEmpty) = true
    · simp [hc]
    · simp only [hc, Bool.false_eq_true, if_neg, if_false]
      rcases htt : tryIndicesT (solveFuel fuel) (propagate (prune (toSudoku grid)))
          (buildFreq (propagate (prune (toSudoku grid))))
          ((propagate (prune (toSudoku grid))).map (fun sq => sq.1))
          (sortedIndices (propagate (prune (toSudoku grid)))) with ⟨o, tr⟩
      have hfst := tryIndicesT_fst (solveFuel fuel) (propagate (prune (toSudoku grid)))
          (buildFreq (propagate (prune (toSudoku grid))))
          ((propagate (prune (toSudoku grid))).map (fun sq => sq.1))
          (sortedIndices (propagate (prune (toSudoku grid))))
      rw [htt] at hfst
      cases o with
      | some soln => simp [htt, ← hfst]
      | none => simp [htt, ← hfst]

theorem tryValuesT_cons_hit (recur : List Nat → Option (List Nat)) (values : List Nat)
    (i v : Nat) (rest soln : List Nat) (hr : recur (values.set i v) = some soln)
    (hs : (!soln.isEmpty && isSolved soln) = true) :
    tryValuesT recur values i (v :: rest) = (some soln, [(i, v)]) := by
  simp only [tryValuesT, hr, hs, eq_self_iff_true, if_true]

theorem tryValuesT_cons_retry (recur : List Nat → Option (List Nat)) (values : List Nat)
    (i v : Nat) (rest soln : List Nat) (hr : recur (values.set i v) = some soln)
    (hs : (!soln.isEmpty && isSolved soln) = false) :
    tryValuesT recur values i (v :: rest) =
      ((tryValuesT recur values i rest).1, (i, v) :: (tryValuesT recur values i rest).2) := by
  simp only [tryValuesT, hr, hs, Bool.false_eq_true, if_false]

theorem tryValuesT_cons_fail (recur : List Nat → Option (List Nat)) (values : List Nat)
    (i v : Nat) (rest : List Nat) (hr : recur (values.set i v) = none) :
    tryValuesT recur values i (v :: rest) =
      ((tryValuesT recur values i rest).1, (i, v) :: (tryValuesT recur values i rest).2) := by
  simp only [tryValuesT, hr]

theorem tryIndicesT_cons_oob (recur : List Nat → Option (List Nat)) (s2 : Sudoku)
    (freq : List (Nat × Nat)) (values : List Nat) (i : Nat) (rest : List Nat)
    (hg : s2.get? i = none) :
    tryIndicesT recur s2 freq values (i :: rest) =
      tryIndicesT recur s2 freq values rest := by
  simp only [tryIndicesT, hg]

theorem tryIndicesT_cons_fixed (recur : List Nat → Option (List Nat)) (s2 : Sudoku)
    (freq : List (Nat × Nat)) (values : List Nat) (i : Nat) (rest : List Nat)
    (sq : Square) (hg : s2.get? i = some sq) (hopen : ¬sq.1 = 0) :
    tryIndicesT recur s2 freq values (i :: rest) =
      tryIndicesT recur s2 freq values rest := by
  simp only [tryIndicesT, hg, hopen, if_false]

theorem tryIndicesT_cons_open_some (recur : List Nat → Option (List Nat)) (s2 : Sudoku)
    (freq : List (Nat × Nat)) (values : List Nat) (i : Nat) (rest : List Nat)
    (sq : Square) (soln : List Nat) (tr : List (Nat × Nat))
    (hg : s2.get? i = some sq) (hopen : sq.1 = 0)
    (htv : tryValuesT recur values i (candOrder freq sq.2) = (some soln, tr)) :
    tryIndicesT recur s2 freq values (i :: rest) = (some soln, tr) := by
  simp only [tryIndicesT, hg, hopen, eq_self_iff_true, if_true, htv]

theorem tryIndicesT_cons_open_none (recur : List Nat → Option (List Nat)) (s2 : Sudoku)
    (freq : List (Nat × Nat)) (values : List Nat) (i : Nat) (rest : List Nat)
    (sq : Square) (tr : List (Nat × Nat))
    (hg : s2.get? i = some sq) (hopen : sq.1 = 0)
    (htv : tryValuesT recur values i (candOrder freq sq.2) = (none, tr)) :
    tryIndicesT recur s2 freq values (i :: rest) =
      ((tryIndicesT recur s2 freq values rest).1,
        tr ++ (tryIndicesT recur s2 freq values rest).2) := by
  simp only [tryIndicesT, hg, hopen, eq_self_iff_true, if_true, htv]

theorem tryValuesT_none_trace (recur : List Nat → Option (List Nat))
    (values : List Nat) (i : Nat) :
    ∀ vals : List Nat, (tryValuesT recur values i vals).1 = none →
      (tryValuesT recur values i vals).2 = vals.map (fun v => (i, v))
  | [], _ => rfl
  | v :: rest, h => by
    cases hr : recur (values.set i v) with
    | some soln =>
      by_cases hs : (!soln.isEmpty && isSolved soln) = true
      · rw [tryValuesT_cons_hit recur values i v rest soln hr hs] at h
        simp at h
      · have hs2 : (!soln.isEmpty && isSolved soln) = false := by
          cases hb : (!soln.isEmpty && isSolved soln)
          · rfl
          · exact absurd hb hs
        rw [tryValuesT_cons_retry recur values i v rest soln hr hs2] at h ⊢
        rw [List.map_cons, tryValuesT_none_trace recur values i rest h]
    | none =>
      rw [tryValuesT_cons_fail recur values i v rest hr] at h ⊢
      rw [List.map_cons, tryValuesT_none_trace recur values i rest h]

theorem tryValuesT_trace_seg (recur : List Nat → Option (List Nat))
    (values : List Nat) (i : Nat) :
    ∀ vals : List Nat,
      SegStart (tryValuesT recur values i vals).2 (vals.map (fun v => (i, v)))
  | [] => SegStart_nil []
  | v :: rest => by
    cases hr : recur (values.set i v) with
    | some soln =>
      by_cases hs : (!soln.isEmpty && isSolved soln) = true
      · rw [tryValuesT_cons_hit recur values i v rest soln hr hs, List.map_cons]
        exact SegStart_cons (i, v) (SegStart_nil _)
      · have hs2 : (!soln.isEmpty && isSolved soln) = false := by
          cases hb : (!soln.isEmpty && isSolved soln)
          · rfl
          · exact absurd hb hs
        rw [tryValuesT_cons_retry recur values i v rest soln hr hs2, List.map_cons]
        exact SegStart_cons (i, v) (tryValuesT_trace_seg recur values i rest)
    | none =>
      rw [tryValuesT_cons_fail recur values i v rest hr, List.map_cons]
      exact SegStart_cons (i, v) (tryValuesT_trace_seg recur values i rest)

theorem guessEnumAux_cons (s2 : Sudoku) (freq : List (Nat × Nat)) (i : Nat)
    (rest : List Nat) :
    guessEnumAux s2 freq (i :: rest) =
      if (s2.getD i (0, [])).1 = 0 then
        (candOrder freq (s2.getD i (0, [])).2).map (fun v => (i, v)) ++
          guessEnumAux s2 freq rest
      else guessEnumAux s2 freq rest := by
  unfold guessEnumAux
  rw [List.filter_cons]
  by_cases h : (s2.getD i (0, [])).1 = 0
  · have hb : ((s2.getD i (0, [])).1 == 0) = true := by simpa using h
    rw [hb, if_pos rfl, if_pos h, List.flatMap_cons]
  · have hb : ((s2.getD i (0, [])).1 == 0) = false := by simpa using h
    rw [hb, if_neg Bool.false_ne_true, if_neg h]

theorem getD_of_get? {s : Sudoku} {i : Nat} {sq : Square} (h : s.get? i = some sq) :
    s.getD i (0, []) = sq := by
  rw [List.getD_eq_getD_get?, h]
  rfl

theorem getD_of_get?_none {s : Sudoku} {i : Nat} (h : s.get? i = none) :
    s.getD i (0, []) = (0, []) := by
  rw [List.getD_eq_getD_get?, h]
  rfl

theorem candOrder_nil (freq : List (Nat × Nat)) : candOrder freq [] = [] := rfl

theorem tryIndicesT_trace_seg (recur : List Nat → Option (List Nat)) (s2 : Sudoku)
    (freq : List (Nat × Nat)) (values : List Nat) :
    ∀ idxs : List Nat,
      SegStart (tryIndicesT recur s2 freq values idxs).2 (guessEnumAux s2 freq idxs)
  | [] => SegStart_nil []
  | i :: rest => by
    rw [guessEnumAux_cons]
    cases hg : s2.get? i with
    | none =>
      rw [tryIndicesT_cons_oob recur s2 freq values i rest hg, getD_of_get?_none hg,
        if_pos (show ((0, []) : Square).1 = 0 from rfl)]
      have hco : ((candOrder freq ((0, []) : Square).2).map (fun v => (i, v))) =
          ([] : List (Nat × Nat)) := rfl
      rw [hco, List.nil_append]
      exact tryIndicesT_trace_seg recur s2 freq values rest
    | some sq =>
      rw [getD_of_get? hg]
      by_cases hopen : sq.1 = 0
      · rw [if_pos hopen]
        rcases htv : tryValuesT recur values i (candOrder freq sq.2) with ⟨o, tr⟩
        cases o with
        | some soln =>
          rw [tryIndicesT_cons_open_some recur s2 freq values i rest sq soln tr hg hopen htv]
          have hseg := tryValuesT_trace_seg recur values i (candOrder freq sq.2)
          rw [htv] at hseg
          exact SegStart_extend _ hseg
        | none =>
          rw [tryIndicesT_cons_open_none recur s2 freq values i rest sq tr hg hopen htv]
          have hfull := tryValuesT_none_trace recur values i (candOrder freq sq.2)
            (by rw [htv])
          rw [htv] at hfull
          have hfull2 : tr = (candOrder freq sq.2).map (fun v => (i, v)) := hfull
          rw [hfull2]
          exact SegStart_append_left _ (tryIndicesT_trace_seg recur s2 freq values rest)
      · rw [if_neg hopen, tryIndicesT_cons_fixed recur s2 freq values i rest sq hg hopen]
        exact tryIndicesT_trace_seg recur s2 freq values rest

theorem tryIndicesT_none_trace (recur : List Nat → Option (List Nat)) (s2 : Sudoku)
    (freq : List (Nat × Nat)) (values : List Nat) :
    ∀ idxs : List Nat, (tryIndicesT recur s2 freq values idxs).1 = none →
      (tryIndicesT recur s2 freq values idxs).2 = guessEnumAux s2 freq idxs
  | [], _ => rfl
  | i :: rest, h => by
    rw [guessEnumAux_cons]
    cases hg : s2.get? i with
    | none =>
      rw [tryIndicesT_cons_oob recur s2 freq values i rest hg] at h
      rw [tryIndicesT_cons_oob recur s2 freq values i rest hg, getD_of_get?_none hg,
        if_pos (show ((0, []) : Square).1 = 0 from rfl)]
      have hco : ((candOrder freq ((0, []) : Square).2).map (fun v => (i, v))) =
          ([] : List (Nat × Nat)) := rfl
      rw [hco, List.nil_append]
      exact tryIndicesT_none_trace recur s2 freq values rest h
    | some sq =>
      rw [getD_of_get? hg]
      by_cases hopen : sq.1 = 0
      · rw [if_pos hopen]
        rcases htv : tryValuesT recur values i (candOrder freq sq.2) with ⟨o, tr⟩
        cases o with
        | some soln =>
          rw [tryIndicesT_cons_open_some recur s2 freq values i rest sq soln tr hg hopen htv]
            at h
          simp at h
        | none =>
          rw [tryIndicesT_cons_open_none recur s2 freq values i rest sq tr hg hopen htv]
            at h ⊢
          have hfull := tryValuesT_none_trace recur values i (candOrder freq sq.2)
            (by rw [htv])
          rw [htv] at hfull
          have hfull2 : tr = (candOrder freq sq.2).map (fun v => (i, v)) := hfull
          rw [hfull2, tryIndicesT_none_trace recur s2 freq values rest h]
      · rw [tryIndicesT_cons_fixed recur s2 freq values i rest sq hg hopen] at h
        rw [if_neg hopen, tryIndicesT_cons_fixed recur s2 freq values i rest sq hg hopen]
        exact tryIndicesT_none_trace recur s2 freq values rest h

/-! ### Preservation of originally given cells -/

theorem updateCell_eq_open (s : Sudoku) (i w : Nat) (sq : Square)
    (hgi : s.get? i = some sq) (ho : sq.1 = 0) :
    updateCell s i w = s.set i (sq.1, sq.2.erase w) := by
  unfold updateCell
  rw [hgi]
  dsimp only
  rw [if_pos ho]

theorem updateCell_eq_fixed (s : Sudoku) (i w : Nat) (sq : Square)
    (hgi : s.get? i = some sq) (ho : ¬sq.1 = 0) : updateCell s i w = s := by
  unfold updateCell
  rw [hgi]
  dsimp only
  rw [if_neg ho]

theorem updateCell_eq_oob (s : Sudoku) (i w : Nat)
    (hgi : s.get? i = none) : updateCell s i w = s := by
  unfold updateCell
  rw [hgi]

theorem updateCell_get_fixed {s : Sudoku} {j v : Nat}
    (hj : s.get? j = some (v, [])) (hv : v ≠ 0) (i w : Nat) :
    (updateCell s i w).get? j = some (v, []) := by
  cases hgi : s.get? i with
  | none =>
    rw [updateCell_eq_oob s i w hgi]
    exact hj
  | some sq =>
    by_cases ho : sq.1 = 0
    · rw [updateCell_eq_open s i w sq hgi ho]
      by_cases hij : i = j
      · subst hij
        rw [hgi] at hj
        injection hj with hj
        rw [hj] at ho
        exact absurd ho hv
      · rw [List.get?_set_ne _ _ hij]
        exact hj
    · rw [updateCell_eq_fixed s i w sq hgi ho]
      exact hj

theorem updateGroup_get_fixed {j v : Nat} (hv : v ≠ 0) (w : Nat) :
    ∀ (g : List Nat) (s : Sudoku), s.get? j = some (v, []) →
      (updateGroup s g w).get? j = some (v, [])
  | [], _, hj => hj
  | i :: g, s, hj => by
    unfold updateGroup
    rw [List.foldl_cons]
    have h1 := updateGroup_get_fixed hv w g (updateCell s i w)
      (updateCell_get_fixed hj hv i w)
    unfold updateGroup at h1
    exact h1

theorem updateConstraints_get_fixed {s : Sudoku} {j v : Nat}
    (hj : s.get? j = some (v, [])) (hv : v ≠ 0) (idx w : Nat) :
    (updateConstraints s idx w).get? j = some (v, []) := by
  unfold updateConstraints
  exact updateGroup_get_fixed hv w _ _
    (updateGroup_get_fixed hv w _ _ (updateGroup_get_fixed hv w _ _ hj))

theorem enum_get? : ∀ (s : Sudoku) (j : Nat),
    s.enum.get? j = (s.get? j).map (fun sq => (j, sq)) := by
  intro s j
  rw [List.get?_eq_getElem?, List.get?_eq_getElem?, List.getElem?_enum]

theorem prune_get_fixed {s : Sudoku} {j v : Nat}
    (hj : s.get? j = some (v, [])) (hv : v ≠ 0) :
    (prune s).get? j = some (v, []) := by
  unfold prune
  rw [List.get?_map, enum_get?, hj]
  have h0 : ¬(((j, ((v, []) : Square)).2.1) = 0) := hv
  simp only [Option.map_map, Option.map_some', Function.comp_apply]
  rw [if_neg h0]

theorem nakedStep_eq_fire (acc : Sudoku × Bool) (i : Nat) (sq : Square)
    (hgi : acc.1.get? i = some sq) (hl : sq.2.length = 1) :
    nakedStep acc i =
      (updateConstraints (acc.1.set i (sq.2.headD 0, [])) i (sq.2.headD 0), true) := by
  unfold nakedStep
  rw [hgi]
  dsimp only
  rw [if_pos hl]

theorem nakedStep_eq_skip (acc : Sudoku × Bool) (i : Nat) (sq : Square)
    (hgi : acc.1.get? i = some sq) (hl : ¬sq.2.length = 1) :
    nakedStep acc i = acc := by
  unfold nakedStep
  rw [hgi]
  dsimp only
  rw [if_neg hl]

theorem nakedStep_eq_oob (acc : Sudoku × Bool) (i : Nat)
    (hgi : acc.1.get? i = none) : nakedStep acc i = acc := by
  unfold nakedStep
  rw [hgi]

theorem nakedStep_fst_fire (acc : Sudoku × Bool) (i : Nat) (sq : Square)
    (hgi : acc.1.get? i = some sq) (hl : sq.2.length = 1) :
    (nakedStep acc i).1 =
      updateConstraints (acc.1.set i (sq.2.headD 0, [])) i (sq.2.headD 0) := by
  rw [nakedStep_eq_fire acc i sq hgi hl]

theorem nakedStep_get_fixed {j v : Nat} (hv : v ≠ 0) (acc : Sudoku × Bool) (i : Nat)
    (hj : acc.1.get? j = some (v, [])) : (nakedStep acc i).1.get? j = some (v, []) := by
  cases hgi : acc.1.get? i with
  | none =>
    rw [nakedStep_eq_oob acc i hgi]
    exact hj
  | some sq =>
    by_cases hl : sq.2.length = 1
    · rw [nakedStep_fst_fire acc i sq hgi hl]
      by_cases hij : i = j
      · subst hij
        rw [hgi] at hj
        have hsq : sq = (v, []) := Option.some.inj hj
        rw [hsq] at hl
        simp at hl
      · refine updateConstraints_get_fixed ?_ hv i (sq.2.headD 0)
        rw [List.get?_set_ne _ _ hij]
        exact hj
    · rw [nakedStep_eq_skip acc i sq hgi hl]
      exact hj

theorem nakedPass_fold_get_fixed {j v : Nat} (hv : v ≠ 0) :
    ∀ (l : List Nat) (acc : Sudoku × Bool), acc.1.get? j = some (v, []) →
      ((l.foldl nakedStep acc).1.get? j = some (v, []))
  | [], _, hj => hj
  | i :: l, acc, hj => by
    rw [List.foldl_cons]
    exact nakedPass_fold_get_fixed hv l (nakedStep acc i) (nakedStep_get_fixed hv acc i hj)

theorem nakedPass_get_fixed {s : Sudoku} {j v : Nat}
    (hj : s.get? j = some (v, [])) (hv : v ≠ 0) :
    (nakedPass s).1.get? j = some (v, []) :=
  nakedPass_fold_get_fixed hv (List.range s.length) (s, false) hj

theorem bumpData_pres (P : Nat → Prop) (d : List (Nat × Nat × Nat)) (v i : Nat)
    (hd : ∀ e ∈ d, P e.2.2) (hi : P i) : ∀ e ∈ bumpData d v i, P e.2.2 := by
  intro e he
  unfold bumpData at he
  by_cases h : d.any (fun x => x.1 == v) = true
  · rw [if_pos h] at he
    rcases List.mem_map.1 he with ⟨e2, he2, heq⟩
    subst heq
    by_cases hev : (e2.1 == v) = true
    · rw [if_pos hev]
      exact hd e2 he2
    · rw [if_neg hev]
      exact hd e2 he2
  · rw [if_neg h] at he
    rcases List.mem_append.1 he with he | he
    · exact hd e he
    · have : e = (v, 1, i) := by simpa using he
      rw [this]
      exact hi

theorem bumpFold_pres (P : Nat → Prop) (i : Nat) (hi : P i) :
    ∀ (vs : List Nat) (d : List (Nat × Nat × Nat)), (∀ e ∈ d, P e.2.2) →
      ∀ e ∈ vs.foldl (fun d v => bumpData d v i) d, P e.2.2
  | [], _, hd => hd
  | w :: vs, d, hd => by
    rw [List.foldl_cons]
    exact bumpFold_pres P i hi vs (bumpData d w i) (bumpData_pres P d w i hd hi)

theorem buildData_open (s : Sudoku) (group : List Nat) :
    ∀ e ∈ buildData s group, ∃ sq, s.get? e.2.2 = some sq ∧ sq.1 = 0 := by
  unfold buildData
  suffices h : ∀ (g : List Nat) (d : List (Nat × Nat × Nat)),
      (∀ e ∈ d, ∃ sq, s.get? e.2.2 = some sq ∧ sq.1 = 0) →
      ∀ e ∈ g.foldl (fun d i =>
        match s.get? i with
        | some sq => if sq.1 = 0 then sq.2.foldl (fun d v => bumpData d v i) d else d
        | none => d) d, ∃ sq, s.get? e.2.2 = some sq ∧ sq.1 = 0 by
    exact h group [] (by intro e he; cases he)
  intro g
  induction g with
  | nil => intro d hd; exact hd
  | cons i g ih =>
    intro d hd
    rw [List.foldl_cons]
    cases hgi : s.get? i with
    | none => exact ih d hd
    | some sq =>
      by_cases ho : sq.1 = 0
      · simp only [hgi, ho, eq_self_iff_true, if_true]
        exact ih _ (bumpFold_pres (fun j => ∃ sq, s.get? j = some sq ∧ sq.1 = 0) i
          ⟨sq, hgi, ho⟩ sq.2 d hd)
      · simp only [hgi, ho, if_false]
        exact ih d hd

theorem fires_fold_get_fixed {j v : Nat} (hv : v ≠ 0) :
    ∀ (d : List (Nat × Nat × Nat)) (c : Sudoku), (∀ e ∈ d, e.2.2 ≠ j) →
      c.get? j = some (v, []) →
      ((d.foldl (fun s e =>
        if e.2.1 = 1 then updateConstraints (s.set e.2.2 (e.1, [])) e.2.2 e.1 else s)
        c).get? j = some (v, []))
  | [], _, _, hj => hj
  | e :: d, c, hne, hj => by
    rw [List.foldl_cons]
    refine fires_fold_get_fixed hv d _ (fun e2 he2 => hne e2 (List.mem_cons_of_mem e he2)) ?_
    by_cases h1 : e.2.1 = 1
    · rw [if_pos h1]
      refine updateConstraints_get_fixed ?_ hv e.2.2 e.1
      rw [List.get?_set_ne _ _ (hne e (List.mem_cons_self e d))]
      exact hj
    · rw [if_neg h1]
      exact hj

theorem hiddenFires_get_fixed {s : Sudoku} {j v : Nat}
    (hj : s.get? j = some (v, [])) (hv : v ≠ 0) (group : List Nat) :
    (hiddenFires s group).get? j = some (v, []) := by
  unfold hiddenFires
  refine fires_fold_get_fixed hv (buildData s group) s ?_ hj
  intro e he heq
  rcases buildData_open s group e he with ⟨sq, hsq, ho⟩
  rw [heq, hj] at hsq
  have hsq2 : (v, ([] : List Nat)) = sq := Option.some.inj hsq
  rw [← hsq2] at ho
  exact hv ho

theorem fires_range_fold_get_fixed (c : Nat → List Nat) {j v : Nat} (hv : v ≠ 0) :
    ∀ (l : List Nat) (s : Sudoku), s.get? j = some (v, []) →
      ((l.foldl (fun s i => hiddenFires s (c i)) s).get? j = some (v, []))
  | [], _, hj => hj
  | i :: l, s, hj => by
    rw [List.foldl_cons]
    exact fires_range_fold_get_fixed c hv l _ (hiddenFires_get_fixed hj hv (c i))

theorem hiddenPass_get_fixed {s : Sudoku} {j v : Nat}
    (hj : s.get? j = some (v, [])) (hv : v ≠ 0) :
    (hiddenPass s).get? j = some (v, []) := by
  unfold hiddenPass
  rw [List.foldl_cons, List.foldl_cons, List.foldl_cons, List.foldl_nil]
  exact fires_range_fold_get_fixed getCol hv _ _
    (fires_range_fold_get_fixed getRow hv _ _
      (fires_range_fold_get_fixed getBox hv _ _ hj))

theorem propagateLoop_get_fixed {j v : Nat} (hv : v ≠ 0) :
    ∀ (n : Nat) (s : Sudoku), s.get? j = some (v, []) →
      (propagateLoop n s).get? j = some (v, [])
  | 0, _, hj => hj
  | n + 1, s, hj => by
    unfold propagateLoop
    have h3 : (hiddenPass (prune (nakedPass s).1)).get? j = some (v, []) :=
      hiddenPass_get_fixed (prune_get_fixed (nakedPass_get_fixed hj hv) hv) hv
    by_cases hch : (nakedPass s).2 = true
    · simp only [hch, if_true]
      exact propagateLoop_get_fixed hv n _ h3
    · have hch2 : (nakedPass s).2 = false := by
        cases hh : (nakedPass s).2
        · rfl
        · exact absurd hh hch
      simp only [hch2]
      rw [if_neg Bool.false_ne_true]
      exact h3

theorem propagate_get_fixed {s : Sudoku} {j v : Nat}
    (hj : s.get? j = some (v, [])) (hv : v ≠ 0) :
    (propagate s).get? j = some (v, []) :=
  propagateLoop_get_fixed hv (s.length + 1) s hj

theorem tryValues_cons_hit (recur : List Nat → Option (List Nat)) (values : List Nat)
    (i v : Nat) (rest soln : List Nat) (hr : recur (values.set i v) = some soln)
    (hs : (!soln.isEmpty && isSolved soln) = true) :
    tryValues recur values i (v :: rest) = some soln := by
  rw [← tryValuesT_fst, tryValuesT_cons_hit recur values i v rest soln hr hs]

theorem tryValues_cons_retry (recur : List Nat → Option (List Nat)) (values : List Nat)
    (i v : Nat) (rest soln : List Nat) (hr : recur (values.set i v) = some soln)
    (hs : (!soln.isEmpty && isSolved soln) = false) :
    tryValues recur values i (v :: rest) = tryValues recur values i rest := by
  rw [← tryValuesT_fst, tryValuesT_cons_retry recur values i v rest soln hr hs]
  exact tryValuesT_fst recur values i rest

theorem tryValues_cons_fail (recur : List Nat → Option (List Nat)) (values : List Nat)
    (i v : Nat) (rest : List Nat) (hr : recur (values.set i v) = none) :
    tryValues recur values i (v :: rest) = tryValues recur values i rest := by
  rw [← tryValuesT_fst, tryValuesT_cons_fail recur values i v rest hr]
  exact tryValuesT_fst recur values i rest

theorem tryValues_some (recur : List Nat → Option (List Nat)) (values : List Nat)
    (i : Nat) :
    ∀ (vals soln : List Nat), tryValues recur values i vals = some soln →
      ∃ w ∈ vals, recur (values.set i w) = some soln
  | [], soln, h => by cases h
  | v :: rest, soln, h => by
    cases hr : recur (values.set i v) with
    | some soln2 =>
      by_cases hs : (!soln2.isEmpty && isSolved soln2) = true
      · rw [tryValues_cons_hit recur values i v rest soln2 hr hs] at h
        injection h with h
        exact ⟨v, List.mem_cons_self v rest, by rw [hr, h]⟩
      · have hs2 : (!soln2.isEmpty && isSolved soln2) = false := by
          cases hb : (!soln2.isEmpty && isSolved soln2)
          · rfl
          · exact absurd hb hs
        rw [tryValues_cons_retry recur values i v rest soln2 hr hs2] at h
        rcases tryValues_some recur values i rest soln h with ⟨w, hw, hww⟩
        exact ⟨w, List.mem_cons_of_mem v hw, hww⟩
    | none =>
      rw [tryValues_cons_fail recur values i v rest hr] at h
      rcases tryValues_some recur values i rest soln h with ⟨w, hw, hww⟩
      exact ⟨w, List.mem_cons_of_mem v hw, hww⟩

theorem tryIndices_cons_oob (recur : List Nat → Option (List Nat)) (s2 : Sudoku)
    (freq : List (Nat × Nat)) (values : List Nat) (i : Nat) (rest : List Nat)
    (hg : s2.get? i = none) :
    tryIndices recur s2 freq values (i :: rest) = tryIndices recur s2 freq values rest := by
  rw [← tryIndicesT_fst, tryIndicesT_cons_oob recur s2 freq values i rest hg]
  exact tryIndicesT_fst recur s2 freq values rest

theorem tryIndices_cons_fixed (recur : List Nat → Option (List Nat)) (s2 : Sudoku)
    (freq : List (Nat × Nat)) (values : List Nat) (i : Nat) (rest : List Nat)
    (sq : Square) (hg : s2.get? i = some sq) (hopen : ¬sq.1 = 0) :
    tryIndices recur s2 freq values (i :: rest) = tryIndices recur s2 freq values rest := by
  rw [← tryIndicesT_fst, tryIndicesT_cons_fixed recur s2 freq values i rest sq hg hopen]
  exact tryIndicesT_fst recur s2 freq values rest

theorem tryIndices_cons_open_some (recur : List Nat → Option (List Nat)) (s2 : Sudoku)
    (freq : List (Nat × Nat)) (values : List Nat) (i : Nat) (rest : List Nat)
    (sq : Square) (soln : List Nat) (hg : s2.get? i = some sq) (hopen : sq.1 = 0)
    (htv : tryValues recur values i (candOrder freq sq.2) = some soln) :
    tryIndices recur s2 freq values (i :: rest) = some soln := by
  rcases h2 : tryValuesT recur values i (candOrder freq sq.2) with ⟨o, tr⟩
  have ho : o = some soln := by
    have := tryValuesT_fst recur values i (candOrder freq sq.2)
    rw [h2] at this
    rw [← htv, ← this]
  subst ho
  rw [← tryIndicesT_fst,
    tryIndicesT_cons_open_some recur s2 freq values i rest sq soln tr hg hopen h2]

theorem tryIndices_cons_open_none (recur : List Nat → Option (List Nat)) (s2 : Sudoku)
    (freq : List (Nat × Nat)) (values : List Nat) (i : Nat) (rest : List Nat)
    (sq : Square) (hg : s2.get? i = some sq) (hopen : sq.1 = 0)
    (htv : tryValues recur values i (candOrder freq sq.2) = none) :
    tryIndices recur s2 freq values (i :: rest) = tryIndices recur s2 freq values rest := by
  rcases h2 : tryValuesT recur values i (candOrder freq sq.2) with ⟨o, tr⟩
  have ho : o = none := by
    have := tryValuesT_fst recur values i (candOrder freq sq.2)
    rw [h2] at this
    rw [← htv, ← this]
  subst ho
  rw [← tryIndicesT_fst,
    tryIndicesT_cons_open_none recur s2 freq values i rest sq tr hg hopen h2]
  exact tryIndicesT_fst recur s2 freq values rest

theorem tryIndices_some (recur : List Nat → Option (List Nat)) (s2 : Sudoku)
    (freq : List (Nat × Nat)) (values : List Nat) :
    ∀ (idxs : List Nat) (soln : List Nat),
      tryIndices recur s2 freq values idxs = some soln →
      ∃ j, (∃ sq, s2.get? j = some sq ∧ sq.1 = 0) ∧
        ∃ w, recur (values.set j w) = some soln
  | [], soln, h => by cases h
  | i :: rest, soln, h => by
    cases hg : s2.get? i with
    | none =>
      rw [tryIndices_cons_oob recur s2 freq values i rest hg] at h
      exact tryIndices_some recur s2 freq values rest soln h
    | some sq =>
      by_cases hopen : sq.1 = 0
      · cases htv : tryValues recur values i (candOrder freq sq.2) with
        | some soln2 =>
          rw [tryIndices_cons_open_some recur s2 freq values i rest sq soln2 hg hopen htv]
            at h
          have h2 : soln2 = soln := Option.some.inj h
          subst h2
          rcases tryValues_some recur values i (candOrder freq sq.2) soln2 htv with
            ⟨w, _, hww⟩
          exact ⟨i, ⟨sq, hg, hopen⟩, w, hww⟩
        | none =>
          rw [tryIndices_cons_open_none recur s2 freq values i rest sq hg hopen htv] at h
          exact tryIndices_some recur s2 freq values rest soln h
      · rw [tryIndices_cons_fixed recur s2 freq values i rest sq hg hopen] at h
        exact tryIndices_some recur s2 freq values rest soln h

theorem solveFuel_eq_contra (fuel : Nat) (grid : List Nat)
    (hc : ((propagate (prune (toSudoku grid))).any
      (fun sq => sq.1 == 0 && sq.2.isEmpty)) = true) :
    solveFuel (fuel + 1) grid = none := by
  simp only [solveFuel, hc, eq_self_iff_true, if_true]

theorem solveFuel_eq_search_some (fuel : Nat) (grid soln : List Nat)
    (hc : ((propagate (prune (toSudoku grid))).any
      (fun sq => sq.1 == 0 && sq.2.isEmpty)) = false)
    (hti : tryIndices (solveFuel fuel) (propagate (prune (toSudoku grid)))
        (buildFreq (propagate (prune (toSudoku grid))))
        ((propagate (prune (toSudoku grid))).map (fun sq => sq.1))
        (sortedIndices (propagate (prune (toSudoku grid)))) = some soln) :
    solveFuel (fuel + 1) grid = some soln := by
  simp only [solveFuel, hc, Bool.false_eq_true, if_false, hti]

theorem solveFuel_eq_search_none (fuel : Nat) (grid : List Nat)
    (hc : ((propagate (prune (toSudoku grid))).any
      (fun sq => sq.1 == 0 && sq.2.isEmpty)) = false)
    (hti : tryIndices (solveFuel fuel) (propagate (prune (toSudoku grid)))
        (buildFreq (propagate (prune (toSudoku grid))))
        ((propagate (prune (toSudoku grid))).map (fun sq => sq.1))
        (sortedIndices (propagate (prune (toSudoku grid)))) = none) :
    solveFuel (fuel + 1) grid =
      some ((propagate (prune (toSudoku grid))).map (fun sq => sq.1)) := by
  simp only [solveFuel, hc, Bool.false_eq_true, if_false, hti]

/-- C8: every originally nonzero input cell retains its value: through
`prune`, `propagate` and `updateConstraints` a fixed square `(v, ∅)` with
`v ≠ 0` is never modified, and every grid `solveFuel` returns (solved or
partial, at any fuel) — in particular every grid `solve` returns — carries
each nonzero input digit unchanged. -/
theorem c8_givens_preserved :
    (∀ (s : Sudoku) (j v : Nat), s.get? j = some (v, []) → v ≠ 0 →
      (∀ idx w, (updateConstraints s idx w).get? j = some (v, [])) ∧
      (prune s).get? j = some (v, []) ∧
      (propagate s).get? j = some (v, [])) ∧
    (∀ (fuel : Nat) (grid out : List Nat), solveFuel fuel grid = some out →
      ∀ (i v : Nat), grid.get? i = some v → v ≠ 0 → out.get? i = some v) ∧
    (∀ (grid out : List Nat), solve grid = some out →
      ∀ (i v : Nat), grid.get? i = some v → v ≠ 0 → out.get? i = some v) := by
  have hmain : ∀ (fuel : Nat) (grid out : List Nat), solveFuel fuel grid = some out →
      ∀ (i v : Nat), grid.get? i = some v → v ≠ 0 → out.get? i = some v := by
    intro fuel
    induction fuel with
    | zero => intro grid out h; cases h
    | succ fuel ih =>
      intro grid out h i v hgv hv
      have hs0 : (toSudoku grid).get? i = some (v, []) := by
        unfold toSudoku
        rw [List.get?_map, hgv]
        simp [hv]
      have hs2 : (propagate (prune (toSudoku grid))).get? i = some (v, []) :=
        propagate_get_fixed (prune_get_fixed hs0 hv) hv
      have hvals : ((propagate (prune (toSudoku grid))).map (fun sq => sq.1)).get? i =
          some v := by
        rw [List.get?_map, hs2]
        rfl
      by_cases hc : ((propagate (prune (toSudoku grid))).any
          (fun sq => sq.1 == 0 && sq.2.isEmpty)) = true
      · rw [solveFuel_eq_contra fuel grid hc] at h
        cases h
      · have hc2 : ((propagate (prune (toSudoku grid))).any
            (fun sq => sq.1 == 0 && sq.2.isEmpty)) = false := by
          cases hb : ((propagate (prune (toSudoku grid))).any
            (fun sq => sq.1 == 0 && sq.2.isEmpty))
          · rfl
          · exact absurd hb hc
        cases hti : tryIndices (solveFuel fuel) (propagate (prune (toSudoku grid)))
            (buildFreq (propagate (prune (toSudoku grid))))
            ((propagate (prune (toSudoku grid))).map (fun sq => sq.1))
            (sortedIndices (propagate (prune (toSudoku grid)))) with
        | some soln =>
          rw [solveFuel_eq_search_some fuel grid soln hc2 hti] at h
          injection h with h
          subst h
          rcases tryIndices_some (solveFuel fuel) _ _ _ _ _ hti with
            ⟨j, ⟨sqj, hsqj, hopenj⟩, w, hrec⟩
          have hji : j ≠ i := by
            intro he
            rw [he, hs2] at hsqj
            injection hsqj with hsqj
            rw [← hsqj] at hopenj
            exact hv hopenj
          have hbranch :
              (((propagate (prune (toSudoku grid))).map (fun sq => sq.1)).set j w).get? i =
              some v := by
            rw [List.get?_set_ne _ _ hji]
            exact hvals
          exact ih _ _ hrec i v hbranch hv
        | none =>
          rw [solveFuel_eq_search_none fuel grid hc2 hti] at h
          injection h with h
          subst h
          exact hvals
  refine ⟨?_, hmain, fun grid out h => hmain (grid.length + 1) grid out h⟩
  intro s j v hj hv
  exact ⟨fun idx w => updateConstraints_get_fixed hj hv idx w,
    prune_get_fixed hj hv, propagate_get_fixed hj hv⟩

/-- Witness for C8 on the all-ones input at cell 5. -/
theorem c8_givens_preserved_witness :
    solve allOnes = some allOnes ∧ allOnes.get? 5 = some 1 ∧
    allOnes.get? 5 = some 1 :=
  ⟨by decide, by decide,
   c8_givens_preserved.2.2 allOnes allOnes (by decide) 5 1 (by decide) (by decide)⟩

/-! ### Propagation soundness: the data-model invariant is preserved and
every assignment `propagate` makes is conflict-free at assignment time -/

theorem get?_lt_length {s : Sudoku} {p : Nat} {sq : Square}
    (h : s.get? p = some sq) : p < s.length := by
  by_contra hge
  rw [List.get?_eq_none.2 (Nat.le_of_not_lt hge)] at h
  cases h

theorem get?_of_lt {s : Sudoku} {p : Nat} (h : p < s.length) :
    ∃ sq, s.get? p = some sq := by
  cases hp : s.get? p with
  | none => exact absurd (List.get?_eq_none.1 hp) (Nat.not_le_of_lt h)
  | some sq => exact ⟨sq, rfl⟩

theorem groupPeers_symm :
    ∀ i, i < 81 → ∀ j, j < 81 → (i ∈ groupPeers j ↔ j ∈ groupPeers i) := by decide

theorem conflictAt_eq_false_iff (s : Sudoku) (idx v : Nat) :
    conflictAt s idx v = false ↔
      ∀ j ∈ groupPeers idx, j ≠ idx → (s.getD j (0, [])).1 ≠ v := by
  unfold conflictAt
  rw [List.any_eq_false]
  simp only [Bool.and_eq_true, bne_iff_ne, beq_iff_eq, not_and]

theorem updateCell_get?_ne (s : Sudoku) (i w p : Nat) (hip : i ≠ p) :
    (updateCell s i w).get? p = s.get? p := by
  cases hgi : s.get? i with
  | none => rw [updateCell_eq_oob s i w hgi]
  | some sq =>
    by_cases ho : sq.1 = 0
    · rw [updateCell_eq_open s i w sq hgi ho, List.get?_set_ne _ _ hip]
    · rw [updateCell_eq_fixed s i w sq hgi ho]

theorem updateCell_val (s : Sudoku) (i w p : Nat) :
    ((updateCell s i w).get? p).map Prod.fst = (s.get? p).map Prod.fst := by
  by_cases hip : i = p
  · subst hip
    cases hgi : s.get? i with
    | none => rw [updateCell_eq_oob s i w hgi, hgi]
    | some sq =>
      by_cases ho : sq.1 = 0
      · rw [updateCell_eq_open s i w sq hgi ho,
          List.get?_set_eq_of_lt _ (get?_lt_length hgi)]
        rfl
      · rw [updateCell_eq_fixed s i w sq hgi ho, hgi]
  · rw [updateCell_get?_ne s i w p hip]

theorem updateGroup_val (w : Nat) :
    ∀ (g : List Nat) (s : Sudoku) (p : Nat),
      ((updateGroup s g w).get? p).map Prod.fst = (s.get? p).map Prod.fst
  | [], _, _ => rfl
  | i :: g, s, p => by
    unfold updateGroup
    rw [List.foldl_cons]
    have h1 := updateGroup_val w g (updateCell s i w) p
    unfold updateGroup at h1
    rw [h1, updateCell_val]

theorem updateConstraints_val (s : Sudoku) (idx w p : Nat) :
    ((updateConstraints s idx w).get? p).map Prod.fst = (s.get? p).map Prod.fst := by
  unfold updateConstraints
  rw [updateGroup_val, updateGroup_val, updateGroup_val]

theorem updateCell_cands (s : Sudoku) (i w p : Nat) (sq' : Square)
    (h : (updateCell s i w).get? p = some sq') :
    ∃ sq, s.get? p = some sq ∧ sq'.1 = sq.1 ∧ List.Sublist sq'.2 sq.2 := by
  by_cases hip : i = p
  · subst hip
    cases hgi : s.get? i with
    | none =>
      rw [updateCell_eq_oob s i w hgi, hgi] at h
      exact Option.noConfusion h
    | some sq =>
      by_cases ho : sq.1 = 0
      · rw [updateCell_eq_open s i w sq hgi ho,
          List.get?_set_eq_of_lt _ (get?_lt_length hgi)] at h
        have e : ((sq.1, sq.2.erase w) : Square) = sq' := Option.some.inj h
        refine ⟨sq, rfl, ?_, ?_⟩
        · rw [← e]
        · rw [← e]
          exact List.erase_sublist w sq.2
      · rw [updateCell_eq_fixed s i w sq hgi ho, hgi] at h
        exact ⟨sq', h, rfl, List.Sublist.refl _⟩
  · rw [updateCell_get?_ne s i w p hip] at h
    exact ⟨sq', h, rfl, List.Sublist.refl _⟩

theorem updateGroup_cands (w : Nat) :
    ∀ (g : List Nat) (s : Sudoku) (p : Nat) (sq' : Square),
      (updateGroup s g w).get? p = some sq' →
      ∃ sq, s.get? p = some sq ∧ sq'.1 = sq.1 ∧ List.Sublist sq'.2 sq.2
  | [], _, _, _, h => ⟨_, h, rfl, List.Sublist.refl _⟩
  | i :: g, s, p, sq', h => by
    unfold updateGroup at h
    rw [List.foldl_cons] at h
    have h1 : (updateGroup (updateCell s i w) g w).get? p = some sq' := h
    rcases updateGroup_cands w g (updateCell s i w) p sq' h1 with ⟨sq1, hs1, he1, hsub1⟩
    rcases updateCell_cands s i w p sq1 hs1 with ⟨sq0, hs0, he0, hsub0⟩
    exact ⟨sq0, hs0, he1.trans he0, hsub1.trans hsub0⟩

theorem updateConstraints_cands (s : Sudoku) (idx w p : Nat) (sq' : Square)
    (h : (updateConstraints s idx w).get? p = some sq') :
    ∃ sq, s.get? p = some sq ∧ sq'.1 = sq.1 ∧ List.Sublist sq'.2 sq.2 := by
  unfold updateConstraints at h
  rcases updateGroup_cands w (getCol (toCol idx)) _ p sq' h with ⟨sq2, hs2, he2, hsub2⟩
  rcases updateGroup_cands w (getRow (toRow idx)) _ p sq2 hs2 with ⟨sq1, hs1, he1, hsub1⟩
  rcases updateGroup_cands w (getBox (toBox idx)) s p sq1 hs1 with ⟨sq0, hs0, he0, hsub0⟩
  exact ⟨sq0, hs0, (he2.trans he1).trans he0, (hsub2.trans hsub1).trans hsub0⟩

theorem updateGroup_keeps_out (w : Nat) (g : List Nat) (s : Sudoku) (p : Nat)
    (sq : Square) (hp : s.get? p = some sq) (hnm : w ∉ sq.2) (sq' : Square)
    (h' : (updateGroup s g w).get? p = some sq') : w ∉ sq'.2 := by
  rcases updateGroup_cands w g s p sq' h' with ⟨sq2, hs2, _, hsub⟩
  rw [hp] at hs2
  have he : sq = sq2 := Option.some.inj hs2
  intro hm
  have hw : w ∈ sq2.2 := hsub.subset hm
  rw [← he] at hw
  exact hnm hw

theorem updateGroup_removes (w : Nat) :
    ∀ (g : List Nat) (s : Sudoku) (p : Nat) (sq : Square), p ∈ g →
      s.get? p = some sq → sq.1 = 0 → sq.2.Nodup →
      ∀ sq', (updateGroup s g w).get? p = some sq' → w ∉ sq'.2
  | [], _, _, _, hmem, _, _, _ => absurd hmem (List.not_mem_nil _)
  | i :: g, s, p, sq, hmem, hp, ho, hnd => by
    intro sq' h'
    unfold updateGroup at h'
    rw [List.foldl_cons] at h'
    have h1 : (updateGroup (updateCell s i w) g w).get? p = some sq' := h'
    by_cases hip : i = p
    · subst hip
      have hset : (updateCell s i w).get? i = some (sq.1, sq.2.erase w) := by
        rw [updateCell_eq_open s i w sq hp ho]
        exact List.get?_set_eq_of_lt _ (get?_lt_length hp)
      refine updateGroup_keeps_out w g (updateCell s i w) i (sq.1, sq.2.erase w)
        hset ?_ sq' h1
      intro hw
      exact ((List.Nodup.mem_erase_iff hnd).1 hw).1 rfl
    · rcases List.mem_cons.1 hmem with he | hmem2
      · exact absurd he.symm hip
      · have h2 : (updateCell s i w).get? p = some sq := by
          rw [updateCell_get?_ne s i w p hip]
          exact hp
        exact updateGroup_removes w g (updateCell s i w) p sq hmem2 h2 ho hnd sq' h1

theorem updateGroup_open_cell (w : Nat) (g : List Nat) (s : Sudoku) (p : Nat)
    (sq : Square) (hp : s.get? p = some sq) :
    ∃ sq1, (updateGroup s g w).get? p = some sq1 ∧ sq1.1 = sq.1 ∧
      List.Sublist sq1.2 sq.2 := by
  have hl1 : p < (updateGroup s g w).length := by
    rw [updateGroup_length]
    exact get?_lt_length hp
  rcases get?_of_lt hl1 with ⟨sq1, hs1⟩
  rcases updateGroup_cands w g s p sq1 hs1 with ⟨sq0, hs0, he, hsub⟩
  rw [hp] at hs0
  have e0 : sq = sq0 := Option.some.inj hs0
  subst e0
  exact ⟨sq1, hs1, he, hsub⟩

theorem updateConstraints_removes (s : Sudoku) (idx w p : Nat) (sq : Square)
    (hmem : p ∈ groupPeers idx) (hp : s.get? p = some sq) (ho : sq.1 = 0)
    (hnd : sq.2.Nodup) (sq' : Square)
    (h' : (updateConstraints s idx w).get? p = some sq') : w ∉ sq'.2 := by
  unfold updateConstraints at h'
  rcases updateGroup_open_cell w (getBox (toBox idx)) s p sq hp with ⟨sq1, hs1, he1, hsub1⟩
  rcases updateGroup_open_cell w (getRow (toRow idx)) _ p sq1 hs1 with ⟨sq2, hs2, he2, hsub2⟩
  rcases List.mem_append.1 hmem with hbr | hcol
  · rcases List.mem_append.1 hbr with hbox | hrow
    · have h1 : w ∉ sq1.2 :=
        updateGroup_removes w (getBox (toBox idx)) s p sq hbox hp ho hnd sq1 hs1
      have h2 : w ∉ sq2.2 := fun hw => h1 (hsub2.subset hw)
      exact updateGroup_keeps_out w (getCol (toCol idx)) _ p sq2 hs2 h2 sq' h'
    · have h2 : w ∉ sq2.2 :=
        updateGroup_removes w (getRow (toRow idx)) _ p sq1 hrow hs1 (he1.trans ho)
          (List.Nodup.sublist hsub1 hnd) sq2 hs2
      exact updateGroup_keeps_out w (getCol (toCol idx)) _ p sq2 hs2 h2 sq' h'
  · exact updateGroup_removes w (getCol (toCol idx)) _ p sq2 hcol hs2
      (he2.trans (he1.trans ho))
      (List.Nodup.sublist hsub2 (List.Nodup.sublist hsub1 hnd)) sq' h'

theorem assign_val {s : Sudoku} (idx w : Nat) (hidx : idx < s.length) (p : Nat) :
    ((updateConstraints (s.set idx (w, [])) idx w).getD p (0, [])).1 =
      if p = idx then w else (s.getD p (0, [])).1 := by
  have hval := updateConstraints_val (s.set idx (w, [])) idx w p
  by_cases hp : p < s.length
  · rcases get?_of_lt (show p < (updateConstraints (s.set idx (w, [])) idx w).length by
      rw [updateConstraints_length, List.length_set]
      exact hp) with ⟨sq', hs'⟩
    rw [hs'] at hval
    by_cases hpi : p = idx
    · subst hpi
      rw [List.get?_set_eq_of_lt _ hidx] at hval
      have e : sq'.1 = w := by simpa using hval
      rw [getD_of_get? hs', if_pos rfl, e]
    · rw [List.get?_set_ne _ _ (Ne.symm hpi)] at hval
      rcases get?_of_lt hp with ⟨sq0, hs0⟩
      rw [hs0] at hval
      have e : sq'.1 = sq0.1 := by simpa using hval
      rw [getD_of_get? hs', getD_of_get? hs0, if_neg hpi, e]
  · have hge : s.length ≤ p := Nat.le_of_not_lt hp
    have h1 : (updateConstraints (s.set idx (w, [])) idx w).get? p = none := by
      rw [List.get?_eq_none, updateConstraints_length, List.length_set]
      exact hge
    have hpi : p ≠ idx := fun he => hp (he ▸ hidx)
    rw [getD_of_get?_none h1, getD_of_get?_none (List.get?_eq_none.2 hge), if_neg hpi]

theorem assign_cell_idx {s : Sudoku} (idx w : Nat) (hidx : idx < s.length) :
    ∃ sq', (updateConstraints (s.set idx (w, [])) idx w).get? idx = some sq' ∧
      sq'.1 = w ∧ sq'.2 = [] := by
  rcases get?_of_lt (show idx < (updateConstraints (s.set idx (w, [])) idx w).length by
    rw [updateConstraints_length, List.length_set]
    exact hidx) with ⟨sq', hs'⟩
  rcases updateConstraints_cands (s.set idx (w, [])) idx w idx sq' hs' with ⟨sq0, hs0, he, hsub⟩
  rw [List.get?_set_eq_of_lt _ hidx] at hs0
  have e : ((w, []) : Square) = sq0 := Option.some.inj hs0
  refine ⟨sq', hs', ?_, ?_⟩
  · rw [he, ← e]
  · rw [← e] at hsub
    exact List.sublist_nil.1 hsub

theorem assign_preserves {s : Sudoku} (hInv : GridState s) {idx : Nat}
    (hidx : idx < 81) (w : Nat) :
    GridState (updateConstraints (s.set idx (w, [])) idx w) := by
  obtain ⟨hlen, hcells⟩ := hInv
  have hidxl : idx < s.length := by
    rw [hlen]
    exact hidx
  have hlen' : (updateConstraints (s.set idx (w, [])) idx w).length = 81 := by
    rw [updateConstraints_length, List.length_set]
    exact hlen
  refine ⟨hlen', ?_⟩
  intro i hi
  have hil : i < (updateConstraints (s.set idx (w, [])) idx w).length := by
    rw [hlen']
    exact hi
  rcases get?_of_lt hil with ⟨sq', hs'i⟩
  rw [getD_of_get? hs'i]
  by_cases hii : i = idx
  · subst hii
    rcases assign_cell_idx i w hidxl with ⟨sq2, hs2, he2, hc2⟩
    have e : sq' = sq2 := Option.some.inj (hs'i.symm.trans hs2)
    subst e
    refine ⟨fun _ => hc2, by rw [hc2]; exact List.nodup_nil, ?_⟩
    intro _ v hv
    rw [hc2] at hv
    cases hv
  · rcases updateConstraints_cands (s.set idx (w, [])) idx w i sq' hs'i with
      ⟨sq0, hs0, he, hsub⟩
    have hs0s := hs0
    rw [List.get?_set_ne _ _ (Ne.symm hii)] at hs0
    have hprops := hcells i hi
    rw [getD_of_get? hs0] at hprops
    refine ⟨?_, List.Nodup.sublist hsub hprops.2.1, ?_⟩
    · intro hne
      rw [he] at hne
      have hz : sq0.2 = [] := hprops.1 hne
      rw [hz] at hsub
      exact List.sublist_nil.1 hsub
    · intro ho v hv
      have ho0 : sq0.1 = 0 := by
        rw [← he]
        exact ho
      have hv0 : v ∈ sq0.2 := hsub.subset hv
      have hold : conflictAt s i v = false := hprops.2.2 ho0 v hv0
      rw [conflictAt_eq_false_iff] at hold ⊢
      intro j hj hji
      rw [assign_val idx w hidxl j]
      by_cases hj2 : j = idx
      · rw [if_pos hj2]
        have hpmem : i ∈ groupPeers idx := by
          rw [← groupPeers_symm idx hidx i hi]
          rw [← hj2]
          exact hj
        have hnm : w ∉ sq'.2 :=
          updateConstraints_removes (s.set idx (w, [])) idx w i sq0 hpmem hs0s ho0
            hprops.2.1 sq' hs'i
        intro hwv
        rw [hwv] at hnm
        exact hnm hv
      · rw [if_neg hj2]
        exact hold j hj hji
theorem prune_get? (s : Sudoku) (p : Nat) :
    (prune s).get? p = (s.get? p).map (fun sq =>
      if sq.1 = 0 then
        (sq.1, inter (inter (inter sq.2 ((collectUsed s).1.getD (toRow p) []))
          ((collectUsed s).2.1.getD (toCol p) []))
          ((collectUsed s).2.2.getD (toBox p) []))
      else sq) := by
  simp only [prune]
  rw [List.get?_map, enum_get?]
  cases s.get? p
  · rfl
  · rfl

theorem prune_val (s : Sudoku) (p : Nat) :
    ((prune s).getD p (0, [])).1 = (s.getD p (0, [])).1 := by
  cases hp : s.get? p with
  | none =>
    have h1 : (prune s).get? p = none := by
      rw [prune_get?, hp]
      rfl
    rw [getD_of_get?_none h1, getD_of_get?_none hp]
  | some sq =>
    have h1 := prune_get? s p
    rw [hp, Option.map_some'] at h1
    by_cases ho : sq.1 = 0
    · rw [getD_of_get? h1, getD_of_get? hp, if_pos ho]
    · rw [getD_of_get? h1, getD_of_get? hp, if_neg ho]

theorem prune_cands (s : Sudoku) (p : Nat) (sq' : Square)
    (h : (prune s).get? p = some sq') :
    ∃ sq, s.get? p = some sq ∧ sq'.1 = sq.1 ∧ List.Sublist sq'.2 sq.2 := by
  rw [prune_get?] at h
  cases hp : s.get? p with
  | none =>
    rw [hp] at h
    exact Option.noConfusion h
  | some sq =>
    rw [hp, Option.map_some'] at h
    have e := Option.some.inj h
    by_cases ho : sq.1 = 0
    · rw [if_pos ho] at e
      refine ⟨sq, rfl, ?_, ?_⟩
      · rw [← e]
      · rw [← e]
        exact (List.filter_sublist _).trans
          ((List.filter_sublist _).trans (List.filter_sublist _))
    · rw [if_neg ho] at e
      refine ⟨sq, rfl, ?_, ?_⟩
      · rw [← e]
      · rw [← e]

theorem prune_inv {s : Sudoku} (hInv : GridState s) : GridState (prune s) := by
  obtain ⟨hlen, hcells⟩ := hInv
  refine ⟨by rw [prune_length]; exact hlen, ?_⟩
  intro i hi
  have hil : i < (prune s).length := by
    rw [prune_length, hlen]
    exact hi
  rcases get?_of_lt hil with ⟨sq', hs'⟩
  rcases prune_cands s i sq' hs' with ⟨sq, hs, he, hsub⟩
  have hprops := hcells i hi
  rw [getD_of_get? hs] at hprops
  rw [getD_of_get? hs']
  refine ⟨?_, List.Nodup.sublist hsub hprops.2.1, ?_⟩
  · intro hne
    rw [he] at hne
    have hz : sq.2 = [] := hprops.1 hne
    rw [hz] at hsub
    exact List.sublist_nil.1 hsub
  · intro ho v hv
    have ho0 : sq.1 = 0 := by
      rw [← he]
      exact ho
    have hv0 : v ∈ sq.2 := hsub.subset hv
    have hold : conflictAt s i v = false := hprops.2.2 ho0 v hv0
    rw [conflictAt_eq_false_iff] at hold ⊢
    intro j hj hji
    rw [prune_val]
    exact hold j hj hji

theorem nakedStepT_eq_fire (acc : (Sudoku × Bool) × List Assign) (i : Nat) (sq : Square)
    (hgi : acc.1.1.get? i = some sq) (hl : sq.2.length = 1) :
    nakedStepT acc i =
      ((updateConstraints (acc.1.1.set i (sq.2.headD 0, [])) i (sq.2.headD 0), true),
        acc.2 ++ [(i, sq.2.headD 0, conflictAt acc.1.1 i (sq.2.headD 0))]) := by
  unfold nakedStepT
  rw [hgi]
  dsimp only
  rw [if_pos hl]

theorem nakedStepT_eq_skip (acc : (Sudoku × Bool) × List Assign) (i : Nat) (sq : Square)
    (hgi : acc.1.1.get? i = some sq) (hl : ¬sq.2.length = 1) : nakedStepT acc i = acc := by
  unfold nakedStepT
  rw [hgi]
  dsimp only
  rw [if_neg hl]

theorem nakedStepT_eq_oob (acc : (Sudoku × Bool) × List Assign) (i : Nat)
    (hgi : acc.1.1.get? i = none) : nakedStepT acc i = acc := by
  unfold nakedStepT
  rw [hgi]


theorem nakedStepT_inv (acc : (Sudoku × Bool) × List Assign) (i : Nat) (hi : i < 81)
    (hInv : GridState acc.1.1) (hev : evOk acc.2) :
    GridState (nakedStepT acc i).1.1 ∧ evOk (nakedStepT acc i).2 := by
  cases hgi : acc.1.1.get? i with
  | none =>
    rw [nakedStepT_eq_oob acc i hgi]
    exact ⟨hInv, hev⟩
  | some sq =>
    by_cases hl : sq.2.length = 1
    · rw [nakedStepT_eq_fire acc i sq hgi hl]
      dsimp only
      have hprops := hInv.2 i hi
      rw [getD_of_get? hgi] at hprops
      have ho : sq.1 = 0 := by
        by_contra hne
        have hz : sq.2 = [] := hprops.1 hne
        rw [hz] at hl
        exact absurd hl (by simp)
      rcases List.length_eq_one.1 hl with ⟨v, hv⟩
      have hcf : conflictAt acc.1.1 i (sq.2.headD 0) = false := by
        rw [show sq.2.headD 0 = v by rw [hv]; rfl]
        refine hprops.2.2 ho v ?_
        rw [hv]
        exact List.mem_singleton_self v
      refine ⟨assign_preserves hInv hi (sq.2.headD 0), ?_⟩
      intro e he
      rcases List.mem_append.1 he with he | he
      · exact hev e he
      · have he2 : e = (i, sq.2.headD 0, conflictAt acc.1.1 i (sq.2.headD 0)) := by
          simpa using he
        rw [he2]
        exact hcf
    · rw [nakedStepT_eq_skip acc i sq hgi hl]
      exact ⟨hInv, hev⟩

theorem nakedPassT_fold_inv :
    ∀ (l : List Nat) (acc : (Sudoku × Bool) × List Assign), (∀ i ∈ l, i < 81) →
      GridState acc.1.1 → evOk acc.2 →
      GridState (l.foldl nakedStepT acc).1.1 ∧ evOk (l.foldl nakedStepT acc).2
  | [], _, _, hInv, hev => ⟨hInv, hev⟩
  | i :: l, acc, hl, hInv, hev => by
    rw [List.foldl_cons]
    rcases nakedStepT_inv acc i (hl i (List.mem_cons_self i l)) hInv hev with ⟨h1, h2⟩
    exact nakedPassT_fold_inv l (nakedStepT acc i)
      (fun j hj => hl j (List.mem_cons_of_mem i hj)) h1 h2

theorem nakedPassT_inv {s : Sudoku} (hInv : GridState s) {evs : List Assign}
    (hev : evOk evs) :
    GridState (nakedPassT s evs).1.1 ∧ evOk (nakedPassT s evs).2 := by
  unfold nakedPassT
  refine nakedPassT_fold_inv (List.range s.length) ((s, false), evs) ?_ hInv hev
  intro i hi
  have h := List.mem_range.1 hi
  rw [hInv.1] at h
  exact h

theorem bumpData_pres2 (P : Nat → Nat → Prop) (d : List (Nat × Nat × Nat)) (v i : Nat)
    (hd : ∀ e ∈ d, P e.1 e.2.2) (hi : P v i) : ∀ e ∈ bumpData d v i, P e.1 e.2.2 := by
  intro e he
  unfold bumpData at he
  by_cases h : d.any (fun x => x.1 == v) = true
  · rw [if_pos h] at he
    rcases List.mem_map.1 he with ⟨e2, he2, heq⟩
    subst heq
    by_cases hev : (e2.1 == v) = true
    · rw [if_pos hev]
      exact hd e2 he2
    · rw [if_neg hev]
      exact hd e2 he2
  · rw [if_neg h] at he
    rcases List.mem_append.1 he with he | he
    · exact hd e he
    · have he2 : e = (v, 1, i) := by simpa using he
      rw [he2]
      exact hi

theorem bumpFold_pres2 (P : Nat → Nat → Prop) (i : Nat) :
    ∀ (vs : List Nat) (d : List (Nat × Nat × Nat)), (∀ v ∈ vs, P v i) →
      (∀ e ∈ d, P e.1 e.2.2) →
      ∀ e ∈ vs.foldl (fun d v => bumpData d v i) d, P e.1 e.2.2
  | [], _, _, hd => hd
  | w :: vs, d, hvs, hd => by
    rw [List.foldl_cons]
    exact bumpFold_pres2 P i vs (bumpData d w i)
      (fun v hv => hvs v (List.mem_cons_of_mem w hv))
      (bumpData_pres2 P d w i hd (hvs w (List.mem_cons_self w vs)))

theorem buildData_entry (s : Sudoku) (group : List Nat) :
    ∀ e ∈ buildData s group,
      ∃ sq, s.get? e.2.2 = some sq ∧ sq.1 = 0 ∧ e.1 ∈ sq.2 := by
  unfold buildData
  suffices h : ∀ (g : List Nat) (d : List (Nat × Nat × Nat)),
      (∀ e ∈ d, ∃ sq, s.get? e.2.2 = some sq ∧ sq.1 = 0 ∧ e.1 ∈ sq.2) →
      ∀ e ∈ g.foldl (fun d i =>
        match s.get? i with
        | some sq => if sq.1 = 0 then sq.2.foldl (fun d v => bumpData d v i) d else d
        | none => d) d, ∃ sq, s.get? e.2.2 = some sq ∧ sq.1 = 0 ∧ e.1 ∈ sq.2 by
    exact h group [] (by intro e he; cases he)
  intro g
  induction g with
  | nil => intro d hd; exact hd
  | cons i g ih =>
    intro d hd
    rw [List.foldl_cons]
    cases hgi : s.get? i with
    | none => exact ih d hd
    | some sq =>
      by_cases ho : sq.1 = 0
      · simp only [hgi, ho, eq_self_iff_true, if_true]
        exact ih _ (bumpFold_pres2
          (fun v j => ∃ sq, s.get? j = some sq ∧ sq.1 = 0 ∧ v ∈ sq.2)
          i sq.2 d (fun v hv => ⟨sq, hgi, ho, hv⟩) hd)
      · simp only [hgi, ho, if_false]
        exact ih d hd

theorem bumpData_keys (d : List (Nat × Nat × Nat)) (v i : Nat)
    (hnd : (d.map (fun e => e.1)).Nodup) :
    ((bumpData d v i).map (fun e => e.1)).Nodup := by
  unfold bumpData
  by_cases h : d.any (fun x => x.1 == v) = true
  · rw [if_pos h]
    have hmm : (d.map (fun e => if e.1 == v then (e.1, e.2.1 + 1, e.2.2) else e)).map
        (fun e => e.1) = d.map (fun e => e.1) := by
      rw [List.map_map]
      apply List.map_congr_left
      intro e he
      simp only [Function.comp_apply]
      by_cases hev : (e.1 == v) = true
      · rw [if_pos hev]
      · rw [if_neg hev]
    rw [hmm]
    exact hnd
  · rw [if_neg h, List.map_append, List.nodup_append]
    refine ⟨hnd, List.nodup_singleton v, ?_⟩
    intro a ha hb
    have hav : a = v := by simpa using hb
    rw [hav] at ha
    rcases List.mem_map.1 ha with ⟨e, he, hek⟩
    exact h (List.any_eq_true.2 ⟨e, he, by simp [hek]⟩)

theorem bumpFold_keys (i : Nat) :
    ∀ (vs : List Nat) (d : List (Nat × Nat × Nat)),
      (d.map (fun e => e.1)).Nodup →
      ((vs.foldl (fun d v => bumpData d v i) d).map (fun e => e.1)).Nodup
  | [], _, hd => hd
  | w :: vs, d, hd => by
    rw [List.foldl_cons]
    exact bumpFold_keys i vs (bumpData d w i) (bumpData_keys d w i hd)

theorem buildData_keys (s : Sudoku) (group : List Nat) :
    ((buildData s group).map (fun e => e.1)).Nodup := by
  unfold buildData
  suffices h : ∀ (g : List Nat) (d : List (Nat × Nat × Nat)),
      (d.map (fun e => e.1)).Nodup →
      ((g.foldl (fun d i =>
        match s.get? i with
        | some sq => if sq.1 = 0 then sq.2.foldl (fun d v => bumpData d v i) d else d
        | none => d) d).map (fun e => e.1)).Nodup by
    exact h group [] (by simp)
  intro g
  induction g with
  | nil => intro d hd; exact hd
  | cons i g ih =>
    intro d hd
    rw [List.foldl_cons]
    cases hgi : s.get? i with
    | none => exact ih d hd
    | some sq =>
      by_cases ho : sq.1 = 0
      · simp only [hgi, ho, eq_self_iff_true, if_true]
        exact ih _ (bumpFold_keys i sq.2 d hd)
      · simp only [hgi, ho, if_false]
        exact ih d hd

theorem firesT_fold_inv :
    ∀ (d : List (Nat × Nat × Nat)) (c : Sudoku) (evs : List Assign),
      GridState c → evOk evs →
      ((d.map (fun e => e.1)).Nodup) →
      (∀ e ∈ d, e.2.2 < 81) →
      (∀ e ∈ d, conflictAt c e.2.2 e.1 = false) →
      GridState (d.foldl (fun st e =>
        if e.2.1 = 1 then
          (updateConstraints (st.1.set e.2.2 (e.1, [])) e.2.2 e.1,
            st.2 ++ [(e.2.2, e.1, conflictAt st.1 e.2.2 e.1)])
        else st) (c, evs)).1 ∧
      evOk (d.foldl (fun st e =>
        if e.2.1 = 1 then
          (updateConstraints (st.1.set e.2.2 (e.1, [])) e.2.2 e.1,
            st.2 ++ [(e.2.2, e.1, conflictAt st.1 e.2.2 e.1)])
        else st) (c, evs)).2
  | [], c, evs, hInv, hev, _, _, _ => ⟨hInv, hev⟩
  | e :: d, c, evs, hInv, hev, hkeys, hlt, hcf => by
    rw [List.foldl_cons]
    dsimp only
    rw [List.map_cons] at hkeys
    rcases List.nodup_cons.1 hkeys with ⟨hnotin, hkeys2⟩
    by_cases h1 : e.2.1 = 1
    · rw [if_pos h1]
      have hie : e.2.2 < 81 := hlt e (List.mem_cons_self e d)
      have hce : conflictAt c e.2.2 e.1 = false := hcf e (List.mem_cons_self e d)
      have hInv2 : GridState (updateConstraints (c.set e.2.2 (e.1, [])) e.2.2 e.1) :=
        assign_preserves hInv hie e.1
      have hev2 : evOk (evs ++ [(e.2.2, e.1, conflictAt c e.2.2 e.1)]) := by
        intro x hx
        rcases List.mem_append.1 hx with hx | hx
        · exact hev x hx
        · have hx2 : x = (e.2.2, e.1, conflictAt c e.2.2 e.1) := by simpa using hx
          rw [hx2]
          exact hce
      have hcf2 : ∀ e2 ∈ d,
          conflictAt (updateConstraints (c.set e.2.2 (e.1, [])) e.2.2 e.1)
            e2.2.2 e2.1 = false := by
        intro e2 he2
        have hc2 : conflictAt c e2.2.2 e2.1 = false :=
          hcf e2 (List.mem_cons_of_mem e he2)
        rw [conflictAt_eq_false_iff] at hc2 ⊢
        intro j hj hji
        rw [assign_val e.2.2 e.1 (by rw [hInv.1]; exact hie) j]
        by_cases hj2 : j = e.2.2
        · rw [if_pos hj2]
          intro hcontra
          exact hnotin (by rw [hcontra]; exact List.mem_map.2 ⟨e2, he2, rfl⟩)
        · rw [if_neg hj2]
          exact hc2 j hj hji
      exact firesT_fold_inv d (updateConstraints (c.set e.2.2 (e.1, [])) e.2.2 e.1)
        (evs ++ [(e.2.2, e.1, conflictAt c e.2.2 e.1)]) hInv2 hev2 hkeys2
        (fun x hx => hlt x (List.mem_cons_of_mem e hx)) hcf2
    · rw [if_neg h1]
      exact firesT_fold_inv d c evs hInv hev hkeys2
        (fun x hx => hlt x (List.mem_cons_of_mem e hx))
        (fun x hx => hcf x (List.mem_cons_of_mem e hx))

theorem hiddenFiresT_inv (group : List Nat) (c : Sudoku) (evs : List Assign)
    (hInv : GridState c) (hev : evOk evs) :
    GridState (hiddenFiresT (c, evs) group).1 ∧ evOk (hiddenFiresT (c, evs) group).2 := by
  unfold hiddenFiresT
  dsimp only
  refine firesT_fold_inv (buildData c group) c evs hInv hev (buildData_keys c group) ?_ ?_
  · intro e he
    rcases buildData_entry c group e he with ⟨sq, hsq, _, _⟩
    have h := get?_lt_length hsq
    rw [hInv.1] at h
    exact h
  · intro e he
    rcases buildData_entry c group e he with ⟨sq, hsq, ho, hv⟩
    have hi : e.2.2 < 81 := by
      have h := get?_lt_length hsq
      rw [hInv.1] at h
      exact h
    have hprops := hInv.2 e.2.2 hi
    rw [getD_of_get? hsq] at hprops
    exact hprops.2.2 ho e.1 hv

theorem firesT_range_fold_inv (c : Nat → List Nat) :
    ∀ (l : List Nat) (st : Sudoku × List Assign),
      GridState st.1 → evOk st.2 →
      GridState (l.foldl (fun st i => hiddenFiresT st (c i)) st).1 ∧
      evOk (l.foldl (fun st i => hiddenFiresT st (c i)) st).2
  | [], _, hInv, hev => ⟨hInv, hev⟩
  | i :: l, st, hInv, hev => by
    obtain ⟨cs, evs⟩ := st
    rw [List.foldl_cons]
    rcases hiddenFiresT_inv (c i) cs evs hInv hev with ⟨h1, h2⟩
    exact firesT_range_fold_inv c l (hiddenFiresT (cs, evs) (c i)) h1 h2

theorem hiddenPassT_inv (c : Sudoku) (evs : List Assign)
    (hInv : GridState c) (hev : evOk evs) :
    GridState (hiddenPassT (c, evs)).1 ∧ evOk (hiddenPassT (c, evs)).2 := by
  unfold hiddenPassT
  rw [List.foldl_cons, List.foldl_cons, List.foldl_cons, List.foldl_nil]
  rcases firesT_range_fold_inv getBox (List.range 9) (c, evs) hInv hev with ⟨h1, h2⟩
  rcases firesT_range_fold_inv getRow (List.range 9) _ h1 h2 with ⟨h3, h4⟩
  exact firesT_range_fold_inv getCol (List.range 9) _ h3 h4

theorem propagateLoopT_inv :
    ∀ (n : Nat) (s : Sudoku) (evs : List Assign), GridState s → evOk evs →
      GridState (propagateLoopT n s evs).1 ∧ evOk (propagateLoopT n s evs).2
  | 0, _, _, hInv, hev => ⟨hInv, hev⟩
  | n + 1, s, evs, hInv, hev => by
    rcases nakedPassT_inv hInv hev with ⟨h1, h2⟩
    rcases hiddenPassT_inv (prune (nakedPassT s evs).1.1) (nakedPassT s evs).2
      (prune_inv h1) h2 with ⟨h3, h4⟩
    simp only [propagateLoopT]
    by_cases hb : (nakedPassT s evs).1.2 = true
    · rw [if_pos hb]
      exact propagateLoopT_inv n _ _ h3 h4
    · rw [if_neg hb]
      exact ⟨h3, h4⟩

theorem nakedStepT_fst (st : (Sudoku × Bool) × List Assign) (i : Nat) :
    (nakedStepT st i).1 = nakedStep st.1 i := by
  cases hgi : st.1.1.get? i with
  | none => rw [nakedStepT_eq_oob st i hgi, nakedStep_eq_oob st.1 i hgi]
  | some sq =>
    by_cases hl : sq.2.length = 1
    · rw [nakedStepT_eq_fire st i sq hgi hl, nakedStep_eq_fire st.1 i sq hgi hl]
    · rw [nakedStepT_eq_skip st i sq hgi hl, nakedStep_eq_skip st.1 i sq hgi hl]

theorem nakedPassT_fold_fst :
    ∀ (l : List Nat) (st : (Sudoku × Bool) × List Assign),
      (l.foldl nakedStepT st).1 = l.foldl nakedStep st.1
  | [], _ => rfl
  | i :: l, st => by
    rw [List.foldl_cons, List.foldl_cons, nakedPassT_fold_fst l (nakedStepT st i),
      nakedStepT_fst]

theorem nakedPassT_fst (s : Sudoku) (evs : List Assign) :
    (nakedPassT s evs).1 = nakedPass s := by
  unfold nakedPassT nakedPass
  exact nakedPassT_fold_fst (List.range s.length) ((s, false), evs)

theorem firesT_fold_fst :
    ∀ (d : List (Nat × Nat × Nat)) (c : Sudoku) (evs : List Assign),
      (d.foldl (fun st e =>
        if e.2.1 = 1 then
          (updateConstraints (st.1.set e.2.2 (e.1, [])) e.2.2 e.1,
            st.2 ++ [(e.2.2, e.1, conflictAt st.1 e.2.2 e.1)])
        else st) (c, evs)).1 =
      d.foldl (fun s e =>
        if e.2.1 = 1 then updateConstraints (s.set e.2.2 (e.1, [])) e.2.2 e.1 else s) c
  | [], _, _ => rfl
  | e :: d, c, evs => by
    rw [List.foldl_cons, List.foldl_cons]
    dsimp only
    by_cases h1 : e.2.1 = 1
    · rw [if_pos h1, if_pos h1]
      exact firesT_fold_fst d _ _
    · rw [if_neg h1, if_neg h1]
      exact firesT_fold_fst d c evs

theorem hiddenFiresT_fst (st : Sudoku × List Assign) (group : List Nat) :
    (hiddenFiresT st group).1 = hiddenFires st.1 group := by
  obtain ⟨c, evs⟩ := st
  unfold hiddenFiresT hiddenFires
  dsimp only
  exact firesT_fold_fst (buildData c group) c evs

theorem firesT_range_fold_fst (c : Nat → List Nat) :
    ∀ (l : List Nat) (st : Sudoku × List Assign),
      (l.foldl (fun st i => hiddenFiresT st (c i)) st).1 =
      l.foldl (fun s i => hiddenFires s (c i)) st.1
  | [], _ => rfl
  | i :: l, st => by
    rw [List.foldl_cons, List.foldl_cons, firesT_range_fold_fst c l _, hiddenFiresT_fst]

theorem hiddenPassT_fst (st : Sudoku × List Assign) :
    (hiddenPassT st).1 = hiddenPass st.1 := by
  obtain ⟨c, evs⟩ := st
  unfold hiddenPassT hiddenPass
  dsimp only
  rw [List.foldl_cons, List.foldl_cons, List.foldl_cons, List.foldl_nil,
    List.foldl_cons, List.foldl_cons, List.foldl_cons, List.foldl_nil]
  rw [firesT_range_fold_fst getCol, firesT_range_fold_fst getRow,
    firesT_range_fold_fst getBox]

theorem propagateLoopT_fst :
    ∀ (n : Nat) (s : Sudoku) (evs : List Assign),
      (propagateLoopT n s evs).1 = propagateLoop n s
  | 0, _, _ => rfl
  | n + 1, s, evs => by
    simp only [propagateLoopT, propagateLoop]
    by_cases hb : (nakedPassT s evs).1.2 = true
    · have hb2 : (nakedPass s).2 = true := by
        rw [← nakedPassT_fst s evs]
        exact hb
      rw [if_pos hb, if_pos hb2, propagateLoopT_fst n _ _, hiddenPassT_fst]
      dsimp only
      rw [nakedPassT_fst]
    · have hb2 : ¬(nakedPass s).2 = true := by
        rw [← nakedPassT_fst s evs]
        exact hb
      rw [if_neg hb, if_neg hb2, hiddenPassT_fst]
      dsimp only
      rw [nakedPassT_fst]

theorem propagateT_fst (s : Sudoku) : (propagateT s).1 = propagate s := by
  unfold propagateT propagate
  exact propagateLoopT_fst (s.length + 1) s []

/-- C5: in every grid state satisfying the data model -- 81 squares, fixed
squares carry no candidates, candidate sets are duplicate-free and consistent
with all currently fixed peers -- every assignment `propagate` makes (by the
naked-single rule or the hidden-single rule) writes a value that, at the
moment of assignment, is not equal to the fixed value of any peer square in
the assigned square's row, column or box: every recorded conflict flag of
the instrumented propagation is `false`. -/
theorem c5_propagate_assignments_consistent (s : Sudoku) (hInv : GridState s) :
    ∀ e ∈ (propagateT s).2, e.2.2 = false := by
  unfold propagateT
  exact (propagateLoopT_inv (s.length + 1) s [] hInv
    (fun e he => absurd he (List.not_mem_nil e))).2

/-- C6 fails on the code: on `gridExhaust`, after both candidates of the
minimum open cell (index 0) fail, `solve` goes on to guess at cells 1, 9
and 10 within the same invocation, and in the end returns the partial value
list rather than the no-solution signal.  The outer loop of `solve` walks
ALL of `sortedIndices`, not just the minimum-candidate cell. -/
theorem c6_guesses_beyond_first_cell :
    (solveTrace 82 gridExhaust).2 =
      [(0, 1), (0, 2), (1, 1), (1, 2), (9, 1), (9, 2), (10, 1), (10, 2)] ∧
    (solveTrace 82 gridExhaust).1 = some gridExhaust := by
  refine ⟨by decide, by decide⟩

/-- C6 amended: in every `solve` invocation the guesses actually made form
an initial segment of the full enumeration `solveGuessEnum` — open cells in
`sortedIndices` order (ascending candidate count, ties broken by lowest
index, as the `stableBelow` sortedness states), each cell's candidates
tried in full in `candOrder` order — cut short only by a successful
recursive branch; the invocation starts at the fewest-candidate open cell
but continues to further open cells when a cell's candidates are
exhausted, and it reports the no-solution signal only when propagation
found a contradiction (or fuel ran out), never because guesses were
exhausted — exhaustion returns the current (possibly partial) value list. -/
theorem c6_guess_order (fuel : Nat) (grid : List Nat) :
    SegStart (solveTrace fuel grid).2 (solveGuessEnum grid) ∧
    (sortedIndices (propagate (prune (toSudoku grid)))).Pairwise
      (stableBelow
        (fun i => ((propagate (prune (toSudoku grid))).getD i (0, [])).2.length)) ∧
    ((solveTrace fuel grid).1 = none →
      fuel = 0 ∨ (propagate (prune (toSudoku grid))).any
        (fun sq => sq.1 == 0 && sq.2.isEmpty) = true) := by
  refine ⟨?_, ?_, ?_⟩
  · cases fuel with
    | zero => exact SegStart_nil _
    | succ fuel =>
      simp only [solveTrace]
      by_cases hc : ((propagate (prune (toSudoku grid))).any
          fun sq => sq.1 == 0 && sq.2.isEmpty) = true
      · rw [if_pos hc]
        exact SegStart_nil _
      · rw [if_neg hc]
        have hne : (propagate (prune (toSudoku grid))).any
            (fun sq => sq.1 == 0 && sq.2.isEmpty) = false := by
          cases hh : (propagate (prune (toSudoku grid))).any
              (fun sq => sq.1 == 0 && sq.2.isEmpty)
          · rfl
          · exact absurd hh hc
        have henum : solveGuessEnum grid = guessEnumAux (propagate (prune (toSudoku grid)))
            (buildFreq (propagate (prune (toSudoku grid))))
            (sortedIndices (propagate (prune (toSudoku grid)))) := by
          simp only [solveGuessEnum, guessEnum, hne, Bool.false_eq_true, if_false]
        rw [henum]
        rcases htt : tryIndicesT (solveFuel fuel) (propagate (prune (toSudoku grid)))
            (buildFreq (propagate (prune (toSudoku grid))))
            ((propagate (prune (toSudoku grid))).map (fun sq => sq.1))
            (sortedIndices (propagate (prune (toSudoku grid)))) with ⟨o, tr⟩
        have hseg := tryIndicesT_trace_seg (solveFuel fuel)
            (propagate (prune (toSudoku grid)))
            (buildFreq (propagate (prune (toSudoku grid))))
            ((propagate (prune (toSudoku grid))).map (fun sq => sq.1))
            (sortedIndices (propagate (prune (toSudoku grid))))
        rw [htt] at hseg
        cases o with
        | some soln => simpa [htt] using hseg
        | none => simpa [htt] using hseg
  · exact sortByKey_range_sorted_strict _ _
  · intro h
    cases fuel with
    | zero => exact Or.inl rfl
    | succ fuel =>
      right
      by_cases hc : ((propagate (prune (toSudoku grid))).any
          fun sq => sq.1 == 0 && sq.2.isEmpty) = true
      · exact hc
      · exfalso
        simp only [solveTrace] at h
        rw [if_neg hc] at h
        rcases htt : tryIndicesT (solveFuel fuel) (propagate (prune (toSudoku grid)))
            (buildFreq (propagate (prune (toSudoku grid))))
            ((propagate (prune (toSudoku grid))).map (fun sq => sq.1))
            (sortedIndices (propagate (prune (toSudoku grid)))) with ⟨o, tr⟩
        rw [htt] at h
        cases o with
        | some soln => simp at h
        | none => simp at h

/-- Witness for C6 amended, at `fuel = 82` on `gridExhaust`. -/
theorem c6_guess_order_witness :
    SegStart (solveTrace 82 gridExhaust).2 (solveGuessEnum gridExhaust) :=
  (c6_guess_order 82 gridExhaust).1

/-- C9: for every index `idx` in `[0,81)`, `toRow idx = idx/9`,
`toCol idx = idx%9` and `toBox idx = (idx/9/3)*3 + (idx%9)/3` under floor
division, and for every group number in `[0,9)` each of `getRow`, `getCol`,
`getBox` returns exactly the 9 cell indices belonging to that row, column
or box, listed in ascending index order. -/
theorem c9_geometry :
    (∀ idx, idx < 81 → toRow idx = idx / 9 ∧ toCol idx = idx % 9 ∧
      toBox idx = (idx / 9 / 3) * 3 + (idx % 9) / 3) ∧
    (∀ g, g < 9 →
      getRow g = (List.range 81).filter (fun j => toRow j == g) ∧
      getCol g = (List.range 81).filter (fun j => toCol j == g) ∧
      getBox g = (List.range 81).filter (fun j => toBox j == g) ∧
      (getRow g).length = 9 ∧ (getCol g).length = 9 ∧ (getBox g).length = 9) := by
  decide

/-- Witness for C9 at concrete inputs `idx = 40` and `g = 4`. -/
theorem c9_geometry_witness :
    (toRow 40 = 40 / 9 ∧ toCol 40 = 40 % 9 ∧
      toBox 40 = (40 / 9 / 3) * 3 + (40 % 9) / 3) ∧
    getBox 4 = (List.range 81).filter (fun j => toBox j == 4) :=
  ⟨c9_geometry.1 40 (by decide), ((c9_geometry.2 4 (by decide)).2.2).1⟩

/-- C1 fails on the code: on the input of 81 ones — a legal input of 81
integers in `[0,9]` — `solve` returns that very grid with every cell
assigned a value in `1..9`, yet no group contains each value of `{1..9}`
exactly once.  `isSolved` checks only that no cell is 0, never validity,
contradicting its own docstring ("Returns True if a sudoku is solved"). -/
theorem c1_solve_returns_invalid_grid :
    solve allOnes = some allOnes ∧ isSolved allOnes = true ∧
    validSolution allOnes = false := by
  refine ⟨by decide, by decide, by decide⟩

/-- C2 fails on the code: on `gridExhaust` every guess fails, and `solve`
returns the partially filled value list (cells 0, 1, 9, 10 still zero) as
its result — neither a fully completed grid nor the no-solution signal
`none`. -/
theorem c2_solve_returns_partially_filled_grid :
    solve gridExhaust = some gridExhaust ∧ gridExhaust.contains 0 = true ∧
    isSolved gridExhaust = false := by
  refine ⟨by decide, by decide, by decide⟩

/-- C3 fails on the code: `allOnes` contains the same nonzero value (1) in
two distinct cells of row 0 (indices 0 and 1), yet `solve` does not return
the no-solution signal `none` — it returns a grid. -/
theorem c3_row_conflict_not_detected :
    allOnes.getD 0 0 = 1 ∧ allOnes.getD 1 0 = 1 ∧ toRow 0 = toRow 1 ∧
    solve allOnes ≠ none := by
  refine ⟨by decide, by decide, by decide, by decide⟩

/-- C4 fails on the code: on the state `solve` builds from `c4grid`
(prune, then propagate), `propagate` returns a grid in which square 9 is
still open with exactly one candidate (`[4]`) — not a fixed point of the
naked-single rule — and running `propagate` a second time changes the
grid.  The cause is that the hidden-single rule sets the dead variable
`forced` instead of the loop flag `changed`. -/
theorem c4_propagate_not_at_fixed_point :
    ((propagate (prune (toSudoku c4grid))).getD 9 (0, [])).1 = 0 ∧
    ((propagate (prune (toSudoku c4grid))).getD 9 (0, [])).2 = [4] ∧
    propagate (propagate (prune (toSudoku c4grid))) ≠
      propagate (prune (toSudoku c4grid)) := by
  refine ⟨by decide, by decide, by decide⟩


theorem c5_propagate_assignments_consistent_witness :
    GridState (prune (toSudoku c4grid)) ∧
      ∀ e ∈ (propagateT (prune (toSudoku c4grid))).2, e.2.2 = false :=
  ⟨by decide, c5_propagate_assignments_consistent _ (by decide)⟩

end SudokuSolver
